import Mathlib

/-!
# Verification of the flowcraft graph core

Shallow embedding of the flowcraft repository's core logic
(`src/hooks/useFlowStore.ts`, `src/utils/flow.ts`, `src/components/Canvas.tsx`,
`src/App.tsx`) and proofs about it.

Conventions of the embedding:
* TypeScript `string | null` becomes `Option String` (JS `null` is `none`).
* JS arrays become `List`, records become structures.
* The module-level mutable id counter (`let _counter = 0`) is threaded
  explicitly: operations that call `generateNodeId`/`generateEdgeId` take the
  current counter value and return the updated one.
* Dynamically-typed JSON values flowing through `importFlow` are modelled by
  the inductive type `Json`; `JSON.parse` failure is modelled by feeding
  the importer an `Option Json` that is `none` for unparseable text. `JSON.stringify`
  followed by `JSON.parse` is the identity on the trees produced by
  `buildExportedFlow` (they contain only strings, `null`, arrays and objects),
  so the serialize/parse pair is modelled as the identity on `Json`.
* Real-number arithmetic of the canvas zoom is modelled exactly over `ℚ`.
-/

namespace Flowcraft

/-- Edge of the flow graph (`FlowEdge` in `src/types/flow.ts`).
`parameters` is a string-to-string record, modelled as an association list. -/
structure FlowEdge where
  id : String
  toNodeId : String
  condition : String
  parameters : List (String × String)
deriving DecidableEq, Repr

/-- Node of the flow graph (`FlowNode` in `src/types/flow.ts`).
Coordinates are modelled as integers (they are always grid multiples). -/
structure FlowNode where
  id : String
  description : String
  prompt : String
  edges : List FlowEdge
  x : Int
  y : Int
deriving DecidableEq, Repr

/-- The store's authoritative state (`FlowState` in `src/types/flow.ts`). -/
structure FlowState where
  nodes : List FlowNode
  startNodeId : Option String
deriving DecidableEq, Repr

/-- `snapToGrid` from `src/utils/flow.ts`: `Math.round(v / 20) * 20`,
with `Math.round x = ⌊x + 1/2⌋` (rounds half toward `+∞`). -/
def snapToGrid (v : Int) : Int := ((v + 10).fdiv 20) * 20

/-- `generateNodeId` from `src/utils/flow.ts`: returns `node_${++_counter}`
for counter value `c` (the increment is threaded by callers). -/
def generateNodeId (c : Nat) : String := "node_" ++ toString (c + 1)

/-- `generateEdgeId` from `src/utils/flow.ts`: returns `edge_${++_counter}`. -/
def generateEdgeId (c : Nat) : String := "edge_" ++ toString (c + 1)

/-- Patch accepted by `updateNode`
(`Partial<Pick<FlowNode, "id" | "description" | "prompt">>`);
`none` means the key is absent from the patch object. -/
structure NodePatch where
  id : Option String := none
  description : Option String := none
  prompt : Option String := none
deriving DecidableEq, Repr

/-- JS object spread `{ ...n, ...patch }` for a node patch. -/
def applyNodePatch (n : FlowNode) (p : NodePatch) : FlowNode :=
  { n with
    id := p.id.getD n.id
    description := p.description.getD n.description
    prompt := p.prompt.getD n.prompt }

/-- Patch accepted by `updateEdge` (`Partial<FlowEdge>`). -/
structure EdgePatch where
  id : Option String := none
  toNodeId : Option String := none
  condition : Option String := none
  parameters : Option (List (String × String)) := none
deriving DecidableEq, Repr

/-- JS object spread `{ ...e, ...patch }` for an edge patch. -/
def applyEdgePatch (e : FlowEdge) (p : EdgePatch) : FlowEdge :=
  { id := p.id.getD e.id
    toNodeId := p.toNodeId.getD e.toNodeId
    condition := p.condition.getD e.condition
    parameters := p.parameters.getD e.parameters }

/-- `deleteNode` from `src/hooks/useFlowStore.ts` (lines 65–75): drop every
node with the id, strip every remaining edge targeting it, and reset
`startNodeId` to `null` if it pointed at the deleted id. -/
def deleteNode (st : FlowState) (id : String) : FlowState :=
  { nodes :=
      (st.nodes.filter (fun n => n.id ≠ id)).map
        (fun n => { n with edges := n.edges.filter (fun e => e.toNodeId ≠ id) })
    startNodeId := if st.startNodeId = some id then none else st.startNodeId }

/-- `updateNode` from `src/hooks/useFlowStore.ts` (lines 77–103). The node(s)
matching `id` receive the patch; any *other* node has its edges' `toNodeId`
rewritten from `id` to the patched id — but only when `patch.id` is truthy
(present and non-empty). The start pointer is updated under the same guard. -/
def updateNode (st : FlowState) (id : String) (p : NodePatch) : FlowState :=
  { nodes :=
      st.nodes.map fun n =>
        if n.id = id then applyNodePatch n p
        else
          match p.id with
          | some newId =>
            if newId ≠ "" ∧ n.edges.any (fun e => e.toNodeId = id) then
              { n with
                edges := n.edges.map fun e =>
                  if e.toNodeId = id then { e with toNodeId := newId } else e }
            else n
          | none => n
    startNodeId :=
      match p.id with
      | some newId =>
        if newId ≠ "" ∧ st.startNodeId = some id then some newId
        else st.startNodeId
      | none => st.startNodeId }

/-- `moveNode` from `src/hooks/useFlowStore.ts` (lines 105–112). -/
def moveNode (st : FlowState) (id : String) (x y : Int) : FlowState :=
  { st with
    nodes := st.nodes.map fun n =>
      if n.id = id then { n with x := snapToGrid x, y := snapToGrid y } else n }

/-- `setStartNode` from `src/hooks/useFlowStore.ts` (lines 114–116). -/
def setStartNode (st : FlowState) (id : String) : FlowState :=
  { st with startNodeId := some id }

/-- `addEdge` from `src/hooks/useFlowStore.ts` (lines 120–133); returns the
new state and the advanced id counter. -/
def addEdge (st : FlowState) (nodeId : String) (c : Nat) : FlowState × Nat :=
  let edge : FlowEdge :=
    { id := generateEdgeId c, toNodeId := "", condition := "", parameters := [] }
  ({ st with
      nodes := st.nodes.map fun n =>
        if n.id = nodeId then { n with edges := n.edges ++ [edge] } else n },
    c + 1)

/-- `connectNodes` from `src/hooks/useFlowStore.ts` (lines 135–148): append a
fresh edge targeting `toId` with condition `"default"` and empty parameters
to every node whose id is `fromId`. -/
def connectNodes (st : FlowState) (fromId toId : String) (c : Nat) :
    FlowState × Nat :=
  let edge : FlowEdge :=
    { id := generateEdgeId c, toNodeId := toId, condition := "default",
      parameters := [] }
  ({ st with
      nodes := st.nodes.map fun n =>
        if n.id = fromId then { n with edges := n.edges ++ [edge] } else n },
    c + 1)

/-- `updateEdge` from `src/hooks/useFlowStore.ts` (lines 150–167). -/
def updateEdge (st : FlowState) (nodeId edgeId : String) (p : EdgePatch) :
    FlowState :=
  { st with
    nodes := st.nodes.map fun n =>
      if n.id = nodeId then
        { n with
          edges := n.edges.map fun e =>
            if e.id = edgeId then applyEdgePatch e p else e }
      else n }

/-- `deleteEdge` from `src/hooks/useFlowStore.ts` (lines 169–178). -/
def deleteEdge (st : FlowState) (nodeId edgeId : String) : FlowState :=
  { st with
    nodes := st.nodes.map fun n =>
      if n.id = nodeId then
        { n with edges := n.edges.filter (fun e => e.id ≠ edgeId) }
      else n }

/-- Severity of a validation issue (the `type` field of `ValidationError`
in `src/types/flow.ts`). -/
inductive Severity where
  | error
  | warning
deriving DecidableEq, Repr

/-- A validation issue (`ValidationError` in `src/types/flow.ts`). Optional
fields that the source leaves `undefined` are `none`. -/
structure ValidationError where
  type : Severity
  nodeId : Option String := none
  edgeId : Option String := none
  field : Option String := none
  message : String
deriving DecidableEq, Repr

/-- JS whitespace test used by `String.prototype.trim`, restricted to the
ASCII whitespace characters (the model's strings only ever hold those). -/
def isJsWs (c : Char) : Bool := (c = ' ') || (c = '\t') || (c = '\n') || (c = '\r')

/-- JS `String.prototype.trim`: strip whitespace from both ends. -/
def jsTrim (s : String) : String :=
  String.mk (((s.data.dropWhile isJsWs).reverse.dropWhile isJsWs).reverse)

/-- Message of the missing-start global error in `validateFlow`. -/
def noStartMsg : String := "No start node selected."

/-- Message of the dangling-start global error in `validateFlow`. -/
def startGoneMsg : String := "Selected start node no longer exists."

/-- Message of the empty-node-id error in `validateFlow`. -/
def emptyIdMsg : String := "Node ID cannot be empty."

/-- Message of the duplicate-node-id error in `validateFlow`
(the template string embeds the repeated id). -/
def dupMsg (s : String) : String := "Duplicate node ID: \"" ++ s ++ "\"."

/-- Message of the missing-description error in `validateFlow`. -/
def descMsg : String := "Description is required."

/-- Message of the empty-edge-target error in `validateFlow`. -/
def noTargetMsg : String := "Edge has no target node."

/-- Message of the dangling-edge-target error in `validateFlow`. -/
def targetMsg (t : String) : String :=
  "Target node \"" ++ t ++ "\" does not exist."

/-- Message of the empty-edge-condition error in `validateFlow`. -/
def condMsg : String := "Edge condition is required."

/-- Message of the unreachable-node warning in `validateFlow`. -/
def unreachMsg (x : String) : String :=
  "Node \"" ++ x ++ "\" is unreachable from the start node."

/-- Per-edge checks of `validateFlow` (`src/utils/flow.ts` lines 299–308):
an empty target, else a dangling target, then an empty condition. -/
def edgeErrs (nodeIds : List String) (nid : String) (e : FlowEdge) :
    List ValidationError :=
  (if e.toNodeId = "" then
    [{ type := .error, nodeId := some nid, edgeId := some e.id,
       message := noTargetMsg }]
  else if e.toNodeId ∈ nodeIds then []
  else
    [{ type := .error, nodeId := some nid, edgeId := some e.id,
       message := targetMsg e.toNodeId }]) ++
  (if jsTrim e.condition = "" then
    [{ type := .error, nodeId := some nid, edgeId := some e.id,
       message := condMsg }]
  else [])

/-- The id check of one node-loop iteration of `validateFlow`
(`src/utils/flow.ts` lines 286–290): a whitespace-only id is an error;
otherwise an id already in the running seen-set is a duplicate error. -/
def idCheckErrs (seen : List String) (n : FlowNode) : List ValidationError :=
  if jsTrim n.id = "" then
    [{ type := .error, nodeId := some n.id, field := some "id",
       message := emptyIdMsg }]
  else if n.id ∈ seen then
    [{ type := .error, nodeId := some n.id, field := some "id",
       message := dupMsg n.id }]
  else []

/-- The description check of one node-loop iteration of `validateFlow`. -/
def descErrs (n : FlowNode) : List ValidationError :=
  if jsTrim n.description = "" then
    [{ type := .error, nodeId := some n.id, field := some "description",
       message := descMsg }]
  else []

/-- All issues emitted for one node of `validateFlow`'s `forEach` body, in
source order: id check, description check, then each edge's checks. -/
def nodeErrs (nodeIds seen : List String) (n : FlowNode) :
    List ValidationError :=
  idCheckErrs seen n ++ descErrs n ++
    (n.edges.map (edgeErrs nodeIds n.id)).flatten

/-- The node `forEach` loop of `validateFlow`; `idSeen.add(node.id)` runs
after each node's checks, so the seen-set grows by the processed id. -/
def nodesLoop (nodeIds : List String) :
    List String → List FlowNode → List ValidationError
  | _, [] => []
  | seen, n :: rest => nodeErrs nodeIds seen n ++ nodesLoop nodeIds (n.id :: seen) rest

/-- Outgoing edge targets followed by the reachability traversal for a given
id: edges of the *first* node found with that id (`nodes.find`), or none. -/
def targetsOf (nodes : List FlowNode) (x : String) : List String :=
  match nodes.find? (fun n => n.id = x) with
  | some n => n.edges.map (·.toNodeId)
  | none => []

/-- The `while (queue.length > 0)` traversal of `validateFlow`
(`src/utils/flow.ts` lines 315–321). The JS array is used as a stack
(`push`/`pop` at the end); its end is this list's head, so pushing a node's
targets prepends them reversed. The `fuel` argument is only a termination
device for the while loop; `dfsFuel` below is proven sufficient. -/
def dfsLoop (nodes : List FlowNode) :
    Nat → List String → List String → List String
  | 0, reachable, _ => reachable
  | _ + 1, reachable, [] => reachable
  | fuel + 1, reachable, cur :: stack =>
    if cur ∈ reachable then dfsLoop nodes fuel reachable stack
    else dfsLoop nodes fuel (cur :: reachable)
      ((targetsOf nodes cur).reverse ++ stack)

/-- Every id ever pushed on the traversal stack: the start id and every edge
target in the graph (deduplicated). -/
def dfsUniverse (nodes : List FlowNode) (s : String) : List String :=
  (s :: nodes.flatMap (fun n => n.edges.map (·.toNodeId))).dedup

/-- Fuel sufficient for the traversal to drain its stack. -/
def dfsFuel (nodes : List FlowNode) (s : String) : Nat :=
  (dfsUniverse nodes s).length *
    ((nodes.flatMap (fun n => n.edges.map (·.toNodeId))).length + 1) + 1

/-- The `reachable` set computed by `validateFlow`'s traversal from `s`. -/
def reachableSet (nodes : List FlowNode) (s : String) : List String :=
  dfsLoop nodes (dfsFuel nodes s) [] [s]

/-- The unreachable-node warnings of `validateFlow`
(`src/utils/flow.ts` lines 322–326), in node order. -/
def reachWarns (nodes : List FlowNode) (s : String) : List ValidationError :=
  (nodes.filter (fun n => ¬ n.id ∈ reachableSet nodes s)).map
    (fun n => { type := .warning, nodeId := some n.id,
                message := unreachMsg n.id })

/-- The global checks of `validateFlow` (`src/utils/flow.ts` lines 278–282):
`!startNodeId` (JS-falsy, i.e. `null` *or empty string*) yields the
missing-start error, else a start id matching no node yields the
dangling-start error. -/
def globalErrs (nodes : List FlowNode) (startNodeId : Option String) :
    List ValidationError :=
  match startNodeId with
  | none => [{ type := .error, message := noStartMsg }]
  | some s =>
    if s = "" then [{ type := .error, message := noStartMsg }]
    else if s ∈ nodes.map (·.id) then []
    else [{ type := .error, message := startGoneMsg }]

/-- The reachability pass of `validateFlow` (`src/utils/flow.ts` lines
311–327), guarded by `startNodeId && nodeIds.includes(startNodeId)`. -/
def reachBlock (nodes : List FlowNode) (startNodeId : Option String) :
    List ValidationError :=
  match startNodeId with
  | some s =>
    if s ≠ "" ∧ s ∈ nodes.map (·.id) then reachWarns nodes s else []
  | none => []

/-- `validateFlow` from `src/utils/flow.ts` (lines 269–330): global checks,
then the per-node loop, then the reachability warnings, concatenated in
source order. -/
def validateFlow (nodes : List FlowNode) (startNodeId : Option String) :
    List ValidationError :=
  globalErrs nodes startNodeId ++
  nodesLoop (nodes.map (·.id)) [] nodes ++
  reachBlock nodes startNodeId

/-- The first six characters of a message; enough to tell the validator's
message templates apart. -/
def msgTag (m : String) : List Char := m.data.take 6

/-- Reachability by following edge targets from `s`, as the spec describes
it: the start id is reachable, and every edge target of the node that a
lookup of a reachable id finds is reachable.  Dangling ids have no outgoing
targets (`targetsOf` is empty for them), so they are not followed further. -/
inductive Reach (nodes : List FlowNode) (s : String) : String → Prop where
  | refl : Reach nodes s s
  | step {x y : String} : Reach nodes s x → y ∈ targetsOf nodes x →
      Reach nodes s y

/-- Concrete fixture: node `"A"` with one edge to `"B"`. -/
def nodeA : FlowNode :=
  { id := "A", description := "d", prompt := "",
    edges := [{ id := "e1", toNodeId := "B", condition := "c",
                parameters := [] }],
    x := 0, y := 0 }

/-- Concrete fixture: node `"B"` with one edge to the nonexistent `"C"`. -/
def nodeB : FlowNode :=
  { id := "B", description := "d", prompt := "",
    edges := [{ id := "e2", toNodeId := "C", condition := "c",
                parameters := [] }],
    x := 0, y := 0 }

/-- Concrete fixture: a node whose id is the empty string. -/
def nodeEmptyId : FlowNode :=
  { id := "", description := "d", prompt := "", edges := [], x := 0, y := 0 }

/-- Concrete fixture: an isolated node `"b"` with no edges. -/
def nodeIsolated : FlowNode :=
  { id := "b", description := "d", prompt := "", edges := [], x := 0, y := 0 }

/-- Concrete fixture: a node with id `"x"`. -/
def nodeX : FlowNode :=
  { id := "x", description := "d", prompt := "", edges := [], x := 0, y := 0 }

/-- Concrete fixture: a node whose id is a single space. -/
def nodeWs : FlowNode :=
  { id := " ", description := "d", prompt := "", edges := [], x := 0, y := 0 }

/-- Serialized edge of the external document (`ExportedFlow` in
`src/types/flow.ts`): the optional `parameters` key is `none` when the JSON
object carries no such key at all. -/
structure ExportedEdge where
  to_node_id : String
  condition : String
  parameters : Option (List (String × String))
deriving DecidableEq, Repr

/-- Serialized node of the external document. -/
structure ExportedNode where
  id : String
  description : String
  prompt : String
  edges : List ExportedEdge
deriving DecidableEq, Repr

/-- The external document shape produced by `buildExportedFlow`. -/
structure ExportedFlow where
  start_node_id : Option String
  nodes : List ExportedNode
deriving DecidableEq, Repr

/-- Edge serialization inside `buildExportedFlow` (`src/utils/flow.ts` lines
256–262): the conditional spread includes a `parameters` key only when
`Object.keys(e.parameters).length > 0`. -/
def exportEdge (e : FlowEdge) : ExportedEdge :=
  { to_node_id := e.toNodeId
    condition := e.condition
    parameters :=
      if 0 < e.parameters.length then some e.parameters else none }

/-- Node serialization inside `buildExportedFlow`: id, description and
prompt verbatim; positions and internal edge ids are dropped. -/
def exportNode (n : FlowNode) : ExportedNode :=
  { id := n.id, description := n.description, prompt := n.prompt,
    edges := n.edges.map exportEdge }

/-- `buildExportedFlow` from `src/utils/flow.ts` (lines 246–265). -/
def buildExportedFlow (nodes : List FlowNode) (startNodeId : Option String) :
    ExportedFlow :=
  { start_node_id := startNodeId, nodes := nodes.map exportNode }

/-- JSON values as produced by `JSON.parse` (numbers restricted to
integers; the modelled documents never carry fractional numbers). Objects
are the parsed form, duplicate keys already resolved. -/
inductive Json where
  | null
  | bool (b : Bool)
  | num (n : Int)
  | str (s : String)
  | arr (elems : List Json)
  | obj (fields : List (String × Json))

/-- JS field access `x.f` for a non-`null` value: an object field, or
`undefined` (`none`) for a missing key or a primitive (which never throws).
Access on `null` throws and is handled by the callers' `null` cases. -/
def getF : Json → String → Option Json
  | .obj fs, k => fs.lookup k
  | _, _ => none

/-- JS truthiness of a possibly-undefined value (`none` is `undefined`). -/
def jsTruthy : Option Json → Bool
  | none => false
  | some .null => false
  | some (.bool b) => b
  | some (.num n) => n != 0
  | some (.str s) => !(s == "")
  | some (.arr _) => true
  | some (.obj _) => true

/-- JS nullish coalescing `x ?? d` with a defined default. -/
def jsCoalesce : Option Json → Json → Json
  | none, d => d
  | some .null, d => d
  | some v, _ => v

/-- JS `a ?? b` where both operands may be undefined. -/
def jsCoalesceO : Option Json → Option Json → Option Json
  | none, b => b
  | some .null, b => b
  | some v, _ => some v

/-- Ways `importFlow` can throw: `JSON.parse` failure, the explicit
missing-`nodes` error, or a `TypeError` from accessing a field of `null` or
calling `.map` on a non-array. -/
inductive ImportError where
  | parseError
  | missingNodes
  | typeError
deriving DecidableEq, Repr

/-- An edge as built by `importFlow`: a freshly generated internal id plus
the raw (dynamically-typed) field values taken from the document. -/
structure RawEdge where
  id : String
  toNodeId : Json
  condition : Json
  parameters : Json

/-- A node as built by `importFlow`; positions are assigned from the import
index. -/
structure RawNode where
  id : Json
  description : Json
  prompt : Json
  edges : List RawEdge
  x : Int
  y : Int

/-- The edge mapper of `importFlow` (`(n.edges ?? []).map(...)`): an edge id
is generated for each entry; a `null` entry throws on its first field
access. -/
def impEdges : Nat → List Json → Except ImportError (List RawEdge × Nat)
  | c, [] => .ok ([], c)
  | _, .null :: _ => .error .typeError
  | c, e :: rest =>
    match impEdges (c + 1) rest with
    | .error er => .error er
    | .ok (res, c') =>
      .ok ({ id := generateEdgeId c,
             toNodeId := jsCoalesce (getF e "to_node_id") (.str ""),
             condition := jsCoalesce (getF e "condition") (.str ""),
             parameters := jsCoalesce (getF e "parameters") (.obj []) }
        :: res, c')

/-- The `edges` part of one node mapping: `n.edges ?? []` then `.map`;
a present, non-nullish, non-array `edges` value throws. -/
def impNodeEdges (c : Nat) (n : Json) :
    Except ImportError (List RawEdge × Nat) :=
  match getF n "edges" with
  | none => .ok ([], c)
  | some .null => .ok ([], c)
  | some (.arr es) => impEdges c es
  | some _ => .error .typeError

/-- One node mapping of `importFlow`: a `null` entry throws on `n.id`;
`n.id || generateNodeId()` keeps a truthy id and otherwise consumes one
counter value; `description`/`prompt` default to `""`; the position is the
grid-snapped 4-column layout from the index. -/
def impNode (c i : Nat) (n : Json) :
    Except ImportError (RawNode × Nat) :=
  match n with
  | .null => .error .typeError
  | _ =>
    match impNodeEdges
        (if jsTruthy (getF n "id") then c else c + 1) n with
    | .error er => .error er
    | .ok (res, c₂) =>
      .ok ({ id :=
               if jsTruthy (getF n "id") then
                 jsCoalesce (getF n "id") (.str "")
               else .str (generateNodeId c),
             description := jsCoalesce (getF n "description") (.str ""),
             prompt := jsCoalesce (getF n "prompt") (.str ""),
             edges := res,
             x := snapToGrid (100 + (Int.ofNat (i % 4)) * 260),
             y := snapToGrid (100 + (Int.ofNat (i / 4)) * 140) }, c₂)

/-- The node `.map` of `importFlow`, threading the index and counter. -/
def impNodesLoop :
    Nat → Nat → List Json → Except ImportError (List RawNode × Nat)
  | _, c, [] => .ok ([], c)
  | i, c, n :: rest =>
    match impNode c i n with
    | .error er => .error er
    | .ok (rn, c') =>
      match impNodesLoop (i + 1) c' rest with
      | .error er => .error er
      | .ok (rns, c'') => .ok (rn :: rns, c'')

/-- `importFlow` from `src/utils/flow.ts` (lines 334–355), over a parsed
document (`none` models `JSON.parse` throwing). `data.nodes` on a `null`
document throws; a missing or non-array `nodes` field raises the explicit
error; otherwise the nodes are mapped in order and the resulting start id
is `data.start_node_id ?? nodes[0]?.id ?? null`. -/
def impFlowTop (c : Nat) (input : Option Json) :
    Except ImportError (List RawNode × Json × Nat) :=
  match input with
  | none => .error .parseError
  | some .null => .error .typeError
  | some data =>
    match getF data "nodes" with
    | some (.arr ns) =>
      match impNodesLoop 0 c ns with
      | .error er => .error er
      | .ok (rns, c') =>
        .ok (rns,
          jsCoalesce (jsCoalesceO (getF data "start_node_id")
            (rns.head?.map (fun r => r.id))) Json.null,
          c')
    | _ => .error .missingNodes

/-- Whether a JSON value is `null`. -/
def isNullJson : Json → Bool
  | .null => true
  | _ => false

/-- A node entry on which the import mapper throws: a `null` entry, a
present non-nullish non-array `edges` value, or a `null` edge entry. -/
def badNode : Json → Bool
  | .null => true
  | n =>
    match getF n "edges" with
    | none => false
    | some .null => false
    | some (.arr es) => es.any isNullJson
    | some _ => true

/-- The documents on which `importFlow` throws. -/
def impMalformed : Option Json → Bool
  | none => true
  | some .null => true
  | some d =>
    match getF d "nodes" with
    | some (.arr ns) => ns.any badNode
    | _ => true

/-- The store's state as replaced by `loadFlow` after a successful import
(raw dynamically-typed values, as JS stores them). -/
structure RawFlowState where
  nodes : List RawNode
  startNodeId : Json

/-- `handleImport` from `src/App.tsx` (lines 180–189): `importFlow` runs to
completion before `loadFlow`, so a throwing import leaves the state
untouched. -/
def handleImport (st : RawFlowState) (c : Nat) (input : Option Json) :
    RawFlowState :=
  match impFlowTop c input with
  | .error _ => st
  | .ok (rns, sj, _) => { nodes := rns, startNodeId := sj }

/-- JSON tree of a serialized parameter map. -/
def paramsJson (ps : List (String × String)) : Json :=
  Json.obj (ps.map (fun p => (p.1, Json.str p.2)))

/-- JSON tree of a serialized edge: `to_node_id`, `condition`, and the
`parameters` key only when present. -/
def exportedEdgeJson (e : ExportedEdge) : Json :=
  Json.obj ([("to_node_id", Json.str e.to_node_id),
             ("condition", Json.str e.condition)] ++
    (match e.parameters with
     | some ps => [("parameters", paramsJson ps)]
     | none => []))

/-- JSON tree of a serialized node. -/
def exportedNodeJson (n : ExportedNode) : Json :=
  Json.obj [("id", Json.str n.id),
            ("description", Json.str n.description),
            ("prompt", Json.str n.prompt),
            ("edges", Json.arr (n.edges.map exportedEdgeJson))]

/-- JSON tree of the exported document, exactly as
`JSON.parse (JSON.stringify doc)` reproduces it: these trees hold only
strings, `null`, arrays and objects, for which stringify-then-parse is the
identity. -/
def exportedFlowJson (f : ExportedFlow) : Json :=
  Json.obj [("start_node_id",
              match f.start_node_id with
              | some s => Json.str s
              | none => Json.null),
            ("nodes", Json.arr (f.nodes.map exportedNodeJson))]

/-- Concrete fixture: a parseable document with an array `nodes` field that
contains a `null` entry. -/
def nullNodeDoc : Json := Json.obj [("nodes", Json.arr [Json.null])]

/-- Canvas viewport state: pan offset and zoom factor
(`useCanvasState` in `src/hooks/useFlowStore.ts`); the arithmetic is
modelled exactly over `ℚ`. -/
structure CanvasView where
  panX : ℚ
  panY : ℚ
  zoom : ℚ
deriving DecidableEq, Repr

/-- `handleWheel` from `src/components/Canvas.tsx` (lines 93–100): a wheel
tick multiplies the zoom by `0.92` when `deltaY > 0` (scroll down) and by
`1.08` otherwise, then clamps to `[0.25, 2.5]`; pan is untouched. -/
def handleWheel (deltaY : ℚ) (v : CanvasView) : CanvasView :=
  { v with
    zoom := min (5/2)
      (max (1/4) (v.zoom * (if deltaY > 0 then 23/25 else 27/25))) }

end Flowcraft

namespace Flowcraft

/-- Every target followed from an id lies in the flattened list of all edge
targets of the graph. -/
theorem targetsOf_subset_flat (nodes : List FlowNode) (x : String) :
    ∀ y ∈ targetsOf nodes x,
      y ∈ nodes.flatMap (fun n => n.edges.map (·.toNodeId)) := by
  intro y hy
  unfold targetsOf at hy
  cases hfind : nodes.find? (fun n => n.id = x) with
  | none => rw [hfind] at hy; cases hy
  | some n =>
    rw [hfind] at hy
    exact List.mem_flatMap.mpr ⟨n, List.mem_of_find?_eq_some hfind, hy⟩

/-- The fan-out of any single id is bounded by the total number of edges. -/
theorem targetsOf_length_le (nodes : List FlowNode) (x : String) :
    (targetsOf nodes x).length ≤
      (nodes.flatMap (fun n => n.edges.map (·.toNodeId))).length := by
  unfold targetsOf
  cases hfind : nodes.find? (fun n => n.id = x) with
  | none => simp
  | some n =>
    rw [List.length_flatMap]
    exact List.single_le_sum (fun _ _ => Nat.zero_le _) _
      (List.mem_map.mpr ⟨n, List.mem_of_find?_eq_some hfind, rfl⟩)

/-- Soundness of the traversal: any predicate holding on the visited set and
the stack and closed under following targets holds on the result. -/
theorem dfsLoop_sound (nodes : List FlowNode) (R : String → Prop)
    (hstep : ∀ x y, R x → y ∈ targetsOf nodes x → R y) :
    ∀ fuel visited stack, (∀ v ∈ visited, R v) → (∀ q ∈ stack, R q) →
      ∀ x ∈ dfsLoop nodes fuel visited stack, R x := by
  intro fuel
  induction fuel with
  | zero => intro visited stack hv _ x hx; exact hv x hx
  | succ fuel ih =>
    intro visited stack hv hs x hx
    cases stack with
    | nil => exact hv x hx
    | cons cur rest =>
      simp only [dfsLoop] at hx
      by_cases hc : cur ∈ visited
      · rw [if_pos hc] at hx
        exact ih visited rest hv (fun q hq => hs q (List.mem_cons_of_mem _ hq))
          x hx
      · rw [if_neg hc] at hx
        refine ih _ _ ?_ ?_ x hx
        · intro v hv'
          rcases List.mem_cons.mp hv' with rfl | h
          · exact hs v (by simp)
          · exact hv v h
        · intro q hq
          rcases List.mem_append.mp hq with h | h
          · exact hstep cur q (hs cur (by simp)) (List.mem_reverse.mp h)
          · exact hs q (List.mem_cons_of_mem _ h)

/-- Removing a fresh element from the not-yet-visited filter of a
duplicate-free list shrinks it by exactly one. -/
theorem filter_not_mem_cons_length {U visited : List String} {cur : String}
    (hU : U.Nodup) (hcurU : cur ∈ U) (hcur : cur ∉ visited) :
    (U.filter (fun x => x ∉ (cur :: visited))).length + 1 =
      (U.filter (fun x => x ∉ visited)).length := by
  induction U with
  | nil => cases hcurU
  | cons a U ih =>
    rw [List.nodup_cons] at hU
    by_cases hac : cur = a
    · subst hac
      rw [List.filter_cons_of_neg (by simp),
        List.filter_cons_of_pos (by simpa using hcur), List.length_cons]
      have hflt : U.filter (fun x => decide (x ∉ cur :: visited)) =
          U.filter (fun x => decide (x ∉ visited)) := by
        apply List.filter_congr
        intro x hx
        have hxa : x ≠ cur := fun h => hU.1 (h ▸ hx)
        simp [hxa]
      rw [hflt]
    · have haU : cur ∈ U := by
        rcases List.mem_cons.mp hcurU with h | h
        · exact absurd h hac
        · exact h
      have ih' := ih hU.2 haU
      have hca : a ≠ cur := fun h => hac h.symm
      by_cases havis : a ∈ visited
      · rw [List.filter_cons_of_neg (by simp [havis]),
          List.filter_cons_of_neg (by simp [havis])]
        exact ih'
      · rw [List.filter_cons_of_pos (by simp [hca, havis]),
          List.filter_cons_of_pos (by simp [havis]),
          List.length_cons, List.length_cons]
        omega

/-- Completeness workhorse for the traversal: with enough fuel relative to
the unvisited part of the universe, the result extends the visited set and
the stack and is closed under following targets. -/
theorem dfsLoop_main (nodes : List FlowNode) (s : String) :
    ∀ fuel visited stack,
      (∀ q ∈ stack, q ∈ dfsUniverse nodes s) →
      ((dfsUniverse nodes s).filter (fun x => x ∉ visited)).length *
          ((nodes.flatMap (fun n => n.edges.map (·.toNodeId))).length + 1) +
          stack.length ≤ fuel →
      (∀ x ∈ visited, ∀ y ∈ targetsOf nodes x, y ∈ visited ∨ y ∈ stack) →
      (∀ v ∈ visited, v ∈ dfsLoop nodes fuel visited stack) ∧
      (∀ q ∈ stack, q ∈ dfsLoop nodes fuel visited stack) ∧
      (∀ x ∈ dfsLoop nodes fuel visited stack, ∀ y ∈ targetsOf nodes x,
        y ∈ dfsLoop nodes fuel visited stack) := by
  intro fuel
  induction fuel with
  | zero =>
    intro visited stack _ hmeas hinv
    have hstack : stack = [] := by
      have : stack.length = 0 := by omega
      exact List.length_eq_zero.mp this
    subst hstack
    refine ⟨fun v hv => hv, ?_, ?_⟩
    · intro q hq
      simp at hq
    · intro x hx y hy
      rcases hinv x hx y hy with h | h
      · exact h
      · simp at h
  | succ fuel ih =>
    intro visited stack hsub hmeas hinv
    cases stack with
    | nil =>
      refine ⟨fun v hv => hv, ?_, ?_⟩
      · intro q hq
        simp at hq
      · intro x hx y hy
        rcases hinv x hx y hy with h | h
        · exact h
        · simp at h
    | cons cur rest =>
      simp only [dfsLoop]
      by_cases hc : cur ∈ visited
      · rw [if_pos hc]
        have hres := ih visited rest
          (fun q hq => hsub q (List.mem_cons_of_mem _ hq))
          (by simp only [List.length_cons] at hmeas; omega)
          (by
            intro x hx y hy
            rcases hinv x hx y hy with h | h
            · exact Or.inl h
            · rcases List.mem_cons.mp h with rfl | h'
              · exact Or.inl hc
              · exact Or.inr h')
        refine ⟨hres.1, ?_, hres.2.2⟩
        intro q hq
        rcases List.mem_cons.mp hq with rfl | h'
        · exact hres.1 q hc
        · exact hres.2.1 q h'
      · rw [if_neg hc]
        have hcurU : cur ∈ dfsUniverse nodes s := hsub cur (by simp)
        have hUnodup : (dfsUniverse nodes s).Nodup := by
          unfold dfsUniverse
          exact List.nodup_dedup _
        have hlen := filter_not_mem_cons_length hUnodup hcurU hc
        have htlen := targetsOf_length_le nodes cur
        have hmeas' :
            ((dfsUniverse nodes s).filter
                (fun x => x ∉ (cur :: visited))).length *
              ((nodes.flatMap
                  (fun n => n.edges.map (·.toNodeId))).length + 1) +
              ((targetsOf nodes cur).reverse ++ rest).length ≤ fuel := by
          rw [List.length_append, List.length_reverse]
          set c₁ := ((dfsUniverse nodes s).filter
            (fun x => x ∉ (cur :: visited))).length with hc₁
          set c₀ := ((dfsUniverse nodes s).filter
            (fun x => x ∉ visited)).length with hc₀
          set B := (nodes.flatMap
            (fun n => n.edges.map (·.toNodeId))).length + 1 with hB
          have hprod : c₀ * B = c₁ * B + B := by
            rw [← hlen]; ring
          simp only [List.length_cons] at hmeas
          omega
        have hres := ih (cur :: visited) ((targetsOf nodes cur).reverse ++ rest)
          (by
            intro q hq
            rcases List.mem_append.mp hq with h | h
            · unfold dfsUniverse
              exact List.mem_dedup.mpr (List.mem_cons_of_mem _
                (targetsOf_subset_flat nodes cur q (List.mem_reverse.mp h)))
            · exact hsub q (List.mem_cons_of_mem _ h))
          hmeas'
          (by
            intro x hx y hy
            rcases List.mem_cons.mp hx with rfl | hxv
            · exact Or.inr (List.mem_append.mpr
                (Or.inl (List.mem_reverse.mpr hy)))
            · rcases hinv x hxv y hy with h | h
              · exact Or.inl (List.mem_cons_of_mem _ h)
              · rcases List.mem_cons.mp h with rfl | h'
                · exact Or.inl (by simp)
                · exact Or.inr (List.mem_append.mpr (Or.inr h')))
        refine ⟨?_, ?_, hres.2.2⟩
        · intro v hv
          exact hres.1 v (List.mem_cons_of_mem _ hv)
        · intro q hq
          rcases List.mem_cons.mp hq with rfl | h'
          · exact hres.1 q (by simp)
          · exact hres.2.1 q (List.mem_append.mpr (Or.inr h'))

/-- The traversal's result is exactly the ids reachable from `s` by
following edge targets. -/
theorem reachableSet_iff (nodes : List FlowNode) (s : String) (x : String) :
    x ∈ reachableSet nodes s ↔ Reach nodes s x := by
  constructor
  · intro hx
    refine dfsLoop_sound nodes (Reach nodes s)
      (fun a b ha hb => Reach.step ha hb) _ [] [s] (by simp) ?_ x hx
    intro q hq
    rcases List.mem_singleton.mp hq with rfl
    exact Reach.refl
  · intro hx
    have hmain := dfsLoop_main nodes s (dfsFuel nodes s) [] [s]
      (by
        intro q hq
        rcases List.mem_singleton.mp hq with rfl
        unfold dfsUniverse
        exact List.mem_dedup.mpr (by simp))
      (by
        have hfull : (dfsUniverse nodes s).filter
            (fun x => x ∉ ([] : List String)) = dfsUniverse nodes s :=
          List.filter_eq_self.mpr (fun a _ => by simp)
        rw [hfull]
        simp [dfsFuel])
      (by intro x hx'; cases hx')
    induction hx with
    | refl => exact hmain.2.1 s (by simp)
    | step hr ht ih => exact hmain.2.2 _ ih _ ht

/-- Tag of the duplicate-id message, independent of the embedded id. -/
theorem msgTag_dup (s : String) : msgTag (dupMsg s) = "Duplic".data := by
  unfold msgTag dupMsg
  rw [String.data_append]
  rw [List.take_append_of_le_length (by
    rw [String.data_append, List.length_append]
    have h : ("Duplicate node ID: \"" : String).data.length = 20 := by decide
    omega)]
  rw [String.data_append, List.take_append_of_le_length (by decide)]
  decide

/-- Tag of the dangling-target message, independent of the embedded id. -/
theorem msgTag_target (t : String) : msgTag (targetMsg t) = "Target".data := by
  unfold msgTag targetMsg
  rw [String.data_append]
  rw [List.take_append_of_le_length (by
    rw [String.data_append, List.length_append]
    have h : ("Target node \"" : String).data.length = 13 := by decide
    omega)]
  rw [String.data_append, List.take_append_of_le_length (by decide)]
  decide

/-- Tag of the unreachable-node message, independent of the embedded id. -/
theorem msgTag_unreach (x : String) :
    msgTag (unreachMsg x) = "Node \"".data := by
  unfold msgTag unreachMsg
  rw [String.data_append]
  rw [List.take_append_of_le_length (by
    rw [String.data_append, List.length_append]
    have h : ("Node \"" : String).data.length = 6 := by decide
    omega)]
  rw [String.data_append, List.take_append_of_le_length (by decide)]
  decide

/-- The duplicate-id message determines the embedded id. -/
theorem dupMsg_inj {s t : String} (h : dupMsg s = dupMsg t) : s = t := by
  unfold dupMsg at h
  have hd := congrArg String.data h
  rw [String.data_append, String.data_append, String.data_append,
    String.data_append] at hd
  have h1 := List.append_cancel_right hd
  have h2 := List.append_cancel_left h1
  cases s
  cases t
  exact congrArg String.mk h2

/-- Every issue of the per-node id check is an error. -/
theorem idCheckErrs_error (seen : List String) (n : FlowNode) :
    ∀ e ∈ idCheckErrs seen n, e.type = Severity.error := by
  intro e he
  unfold idCheckErrs at he
  split at he
  · rcases List.mem_singleton.mp he with rfl
    rfl
  · split at he
    · rcases List.mem_singleton.mp he with rfl
      rfl
    · cases he

/-- Every issue of the per-node description check is an error. -/
theorem descErrs_error (n : FlowNode) :
    ∀ e ∈ descErrs n, e.type = Severity.error := by
  intro e he
  unfold descErrs at he
  split at he
  · rcases List.mem_singleton.mp he with rfl
    rfl
  · cases he

/-- Every issue of the per-edge checks is an error. -/
theorem edgeErrs_error (nodeIds : List String) (nid : String) (e : FlowEdge) :
    ∀ v ∈ edgeErrs nodeIds nid e, v.type = Severity.error := by
  intro v hv
  unfold edgeErrs at hv
  rcases List.mem_append.mp hv with h | h
  · split at h
    · rcases List.mem_singleton.mp h with rfl
      rfl
    · split at h
      · cases h
      · rcases List.mem_singleton.mp h with rfl
        rfl
  · split at h
    · rcases List.mem_singleton.mp h with rfl
      rfl
    · cases h

/-- Every issue of the node loop is an error (warnings only come from the
reachability pass). -/
theorem nodesLoop_error (nodeIds : List String) :
    ∀ (ns : List FlowNode) (seen : List String),
      ∀ e ∈ nodesLoop nodeIds seen ns, e.type = Severity.error := by
  intro ns
  induction ns with
  | nil => intro seen e he; cases he
  | cons n rest ih =>
    intro seen e he
    simp only [nodesLoop, nodeErrs] at he
    rcases List.mem_append.mp he with h | h
    · rcases List.mem_append.mp h with h' | h'
      · rcases List.mem_append.mp h' with h'' | h''
        · exact idCheckErrs_error seen n e h''
        · exact descErrs_error n e h''
      · obtain ⟨l, hl, hel⟩ := List.mem_flatten.mp h'
        obtain ⟨ed, hed, rfl⟩ := List.mem_map.mp hl
        exact edgeErrs_error nodeIds n.id ed e hel
    · exact ih (n.id :: seen) e h

/-- The message of every issue of the node loop is one of the six per-node
or per-edge error templates. -/
theorem nodesLoop_message (nodeIds : List String) :
    ∀ (ns : List FlowNode) (seen : List String),
      ∀ e ∈ nodesLoop nodeIds seen ns,
        e.message = emptyIdMsg ∨ (∃ u, e.message = dupMsg u) ∨
        e.message = descMsg ∨ e.message = noTargetMsg ∨
        (∃ t, e.message = targetMsg t) ∨ e.message = condMsg := by
  intro ns
  induction ns with
  | nil => intro seen e he; cases he
  | cons n rest ih =>
    intro seen e he
    simp only [nodesLoop, nodeErrs] at he
    rcases List.mem_append.mp he with h | h
    · rcases List.mem_append.mp h with h' | h'
      · rcases List.mem_append.mp h' with h'' | h''
        · unfold idCheckErrs at h''
          split at h''
          · rcases List.mem_singleton.mp h'' with rfl
            exact Or.inl rfl
          · split at h''
            · rcases List.mem_singleton.mp h'' with rfl
              exact Or.inr (Or.inl ⟨n.id, rfl⟩)
            · cases h''
        · unfold descErrs at h''
          split at h''
          · rcases List.mem_singleton.mp h'' with rfl
            exact Or.inr (Or.inr (Or.inl rfl))
          · cases h''
      · obtain ⟨l, hl, hel⟩ := List.mem_flatten.mp h'
        obtain ⟨ed, _, rfl⟩ := List.mem_map.mp hl
        unfold edgeErrs at hel
        rcases List.mem_append.mp hel with hh | hh
        · split at hh
          · rcases List.mem_singleton.mp hh with rfl
            exact Or.inr (Or.inr (Or.inr (Or.inl rfl)))
          · split at hh
            · cases hh
            · rcases List.mem_singleton.mp hh with rfl
              exact Or.inr (Or.inr (Or.inr (Or.inr (Or.inl
                ⟨ed.toNodeId, rfl⟩))))
        · split at hh
          · rcases List.mem_singleton.mp hh with rfl
            exact Or.inr (Or.inr (Or.inr (Or.inr (Or.inr rfl))))
          · cases hh
    · exact ih (n.id :: seen) e h

/-- The unreachable-node message never coincides with a node-loop message. -/
theorem unreachMsg_ne_loop (x m : String)
    (hm : m = emptyIdMsg ∨ (∃ u, m = dupMsg u) ∨ m = descMsg ∨
      m = noTargetMsg ∨ (∃ t, m = targetMsg t) ∨ m = condMsg) :
    unreachMsg x ≠ m := by
  have htag : msgTag (unreachMsg x) = "Node \"".data := msgTag_unreach x
  intro he
  rcases hm with h | ⟨u, h⟩ | h | h | ⟨t, h⟩ | h
  · rw [he, h] at htag
    exact absurd htag (by decide)
  · rw [he, h, msgTag_dup] at htag
    exact absurd htag (by decide)
  · rw [he, h] at htag
    exact absurd htag (by decide)
  · rw [he, h] at htag
    exact absurd htag (by decide)
  · rw [he, h, msgTag_target] at htag
    exact absurd htag (by decide)
  · rw [he, h] at htag
    exact absurd htag (by decide)

/-- Every entry of the reachability warning block is a warning. -/
theorem reachWarns_warning (nodes : List FlowNode) (s : String) :
    ∀ e ∈ reachWarns nodes s, e.type = Severity.warning := by
  intro e he
  unfold reachWarns at he
  obtain ⟨n, _, rfl⟩ := List.mem_map.mp he
  rfl

/-- With a truthy start id that matches some node the global checks pass. -/
theorem globalErrs_of_mem (nodes : List FlowNode) (s : String) (hs : s ≠ "")
    (hmem : s ∈ nodes.map (·.id)) : globalErrs nodes (some s) = [] := by
  simp only [globalErrs]
  rw [if_neg hs, if_pos hmem]

/-- With a truthy start id that matches some node the reachability pass
runs. -/
theorem reachBlock_of_mem (nodes : List FlowNode) (s : String) (hs : s ≠ "")
    (hmem : s ∈ nodes.map (·.id)) :
    reachBlock nodes (some s) = reachWarns nodes s := by
  simp only [reachBlock]
  rw [if_pos ⟨hs, hmem⟩]

/-- C5 (amended): for a non-null, *non-empty* start id that matches a node,
the warnings in `validateFlow`'s output are exactly one unreachable-node
warning per node whose id the traversal did not reach, in node order; the
traversal's result coincides with reachability by following edge targets
(`Reach`), and unreachability is never reported with error severity. -/
theorem validateFlow_reachability (nodes : List FlowNode) (s : String)
    (hs : s ≠ "") (hmem : s ∈ nodes.map (·.id)) :
    ((validateFlow nodes (some s)).filter
        (fun e => e.type = Severity.warning) =
      (nodes.filter (fun n => ¬ n.id ∈ reachableSet nodes s)).map
        (fun n => { type := Severity.warning, nodeId := some n.id,
                    message := unreachMsg n.id })) ∧
    (∀ x, x ∈ reachableSet nodes s ↔ Reach nodes s x) ∧
    (∀ e ∈ validateFlow nodes (some s),
      (∃ x, e.message = unreachMsg x) → e.type = Severity.warning) := by
  have hguard : s ≠ "" ∧ s ∈ nodes.map (·.id) := ⟨hs, hmem⟩
  have hloop : (nodesLoop (nodes.map (·.id)) [] nodes).filter
      (fun e => e.type = Severity.warning) = [] := by
    rw [List.filter_eq_nil_iff]
    intro e he
    have := nodesLoop_error (nodes.map (·.id)) nodes [] e he
    simp [this]
  have hreach : (reachWarns nodes s).filter
      (fun e => e.type = Severity.warning) = reachWarns nodes s := by
    rw [List.filter_eq_self]
    intro e he
    simp [reachWarns_warning nodes s e he]
  refine ⟨?_, reachableSet_iff nodes s, ?_⟩
  · simp only [validateFlow]
    rw [globalErrs_of_mem nodes s hs hmem, reachBlock_of_mem nodes s hs hmem,
      List.nil_append, List.filter_append, hloop, hreach, List.nil_append]
    rfl
  · intro e he hex
    obtain ⟨x, hx⟩ := hex
    simp only [validateFlow] at he
    rw [globalErrs_of_mem nodes s hs hmem, reachBlock_of_mem nodes s hs hmem,
      List.nil_append] at he
    rcases List.mem_append.mp he with h | h
    · have hmsg := nodesLoop_message (nodes.map (·.id)) nodes [] e h
      exact absurd (hx ▸ hmsg) fun hm =>
        unreachMsg_ne_loop x e.message hmsg (hx.symm)
    · exact reachWarns_warning nodes s e h

/-- Witness for `validateFlow_reachability`, at the spec's own example:
`A → B`, `B → "C"` with `"C"` nonexistent, start `"A"`. Both nodes are
reached, so there are no warnings, and the only issue is the single
dangling-target error. -/
theorem validateFlow_reachability_witness :
    ((validateFlow [nodeA, nodeB] (some "A")).filter
        (fun e => e.type = Severity.warning) =
      ([nodeA, nodeB].filter
          (fun n => ¬ n.id ∈ reachableSet [nodeA, nodeB] "A")).map
        (fun n => { type := Severity.warning, nodeId := some n.id,
                    message := unreachMsg n.id })) ∧
    ((validateFlow [nodeA, nodeB] (some "A")).filter
        (fun e => e.type = Severity.warning) = []) ∧
    ((validateFlow [nodeA, nodeB] (some "A")).countP
        (fun e => e.message = targetMsg "C") = 1) :=
  ⟨(validateFlow_reachability [nodeA, nodeB] "A" (by decide) (by decide)).1,
    by decide, by decide⟩

/-- C5 counterexample: the claim as stated fails for the empty-string start
id. `startNodeId = ""` is non-null and matches the node with id `""`, and
the isolated node `"b"` is not reachable from it, yet `validateFlow` emits
no warnings at all, because the reachability pass is guarded by JS
truthiness of the start id, which the empty string fails. -/
theorem validateFlow_reachability_counterexample :
    ("" ∈ ([nodeEmptyId, nodeIsolated].map (·.id))) ∧
    nodeIsolated ∈ [nodeEmptyId, nodeIsolated] ∧
    nodeIsolated.id = "b" ∧
    ¬ Reach [nodeEmptyId, nodeIsolated] "" "b" ∧
    ((validateFlow [nodeEmptyId, nodeIsolated] (some "")).filter
      (fun e => e.type = Severity.warning) = []) := by
  refine ⟨by decide, by decide, by decide, ?_, by decide⟩
  intro h
  have honly : ∀ x, Reach [nodeEmptyId, nodeIsolated] "" x → x = "" := by
    intro x hx
    induction hx with
    | refl => rfl
    | step hr ht ih =>
      rw [ih] at ht
      have hT : targetsOf [nodeEmptyId, nodeIsolated] "" = [] := by decide
      rw [hT] at ht
      cases ht
  exact absurd (honly "b" h) (by decide)

/-- Two messages with different tags differ. -/
theorem tag_ne {a b : String} (h : msgTag a ≠ msgTag b) : a ≠ b :=
  fun he => h (congrArg msgTag he)

/-- The duplicate-id message differs from every other message template. -/
theorem dupMsg_ne_others (s : String) :
    dupMsg s ≠ emptyIdMsg ∧ dupMsg s ≠ descMsg ∧ dupMsg s ≠ noTargetMsg ∧
    dupMsg s ≠ condMsg ∧ dupMsg s ≠ noStartMsg ∧ dupMsg s ≠ startGoneMsg ∧
    (∀ t, dupMsg s ≠ targetMsg t) ∧ (∀ x, dupMsg s ≠ unreachMsg x) := by
  refine ⟨tag_ne (by rw [msgTag_dup]; decide),
    tag_ne (by rw [msgTag_dup]; decide),
    tag_ne (by rw [msgTag_dup]; decide),
    tag_ne (by rw [msgTag_dup]; decide),
    tag_ne (by rw [msgTag_dup]; decide),
    tag_ne (by rw [msgTag_dup]; decide),
    fun t => tag_ne (by rw [msgTag_dup, msgTag_target]; decide),
    fun x => tag_ne (by rw [msgTag_dup, msgTag_unreach]; decide)⟩

/-- The empty-id message differs from every other message template. -/
theorem emptyIdMsg_ne_others :
    emptyIdMsg ≠ descMsg ∧ emptyIdMsg ≠ noTargetMsg ∧
    emptyIdMsg ≠ condMsg ∧ emptyIdMsg ≠ noStartMsg ∧
    emptyIdMsg ≠ startGoneMsg ∧ (∀ s, emptyIdMsg ≠ dupMsg s) ∧
    (∀ t, emptyIdMsg ≠ targetMsg t) ∧ (∀ x, emptyIdMsg ≠ unreachMsg x) := by
  refine ⟨by decide, by decide, by decide, by decide, by decide,
    fun s => (dupMsg_ne_others s).1.symm,
    fun t => tag_ne (by rw [msgTag_target]; decide),
    fun x => tag_ne (by rw [msgTag_unreach]; decide)⟩

/-- Duplicate-id errors never arise from the description or edge checks. -/
theorem nodeRest_dupCount (nodeIds : List String) (n : FlowNode)
    (s : String) :
    (descErrs n ++ (n.edges.map (edgeErrs nodeIds n.id)).flatten).countP
      (fun e => e.message = dupMsg s) = 0 := by
  rw [List.countP_eq_zero]
  intro e he
  simp only [decide_eq_true_eq]
  intro hmsg
  rcases List.mem_append.mp he with h | h
  · unfold descErrs at h
    split at h
    · rcases List.mem_singleton.mp h with rfl
      exact (dupMsg_ne_others s).2.1 hmsg.symm
    · cases h
  · obtain ⟨l, hl, hel⟩ := List.mem_flatten.mp h
    obtain ⟨ed, _, rfl⟩ := List.mem_map.mp hl
    unfold edgeErrs at hel
    rcases List.mem_append.mp hel with hh | hh
    · split at hh
      · rcases List.mem_singleton.mp hh with rfl
        exact (dupMsg_ne_others s).2.2.1 hmsg.symm
      · split at hh
        · cases hh
        · rcases List.mem_singleton.mp hh with rfl
          exact (dupMsg_ne_others s).2.2.2.2.2.2.1 ed.toNodeId hmsg.symm
    · split at hh
      · rcases List.mem_singleton.mp hh with rfl
        exact (dupMsg_ne_others s).2.2.2.1 hmsg.symm
      · cases hh

/-- Duplicate-id errors emitted by the id check of a single iteration. -/
theorem idCheck_dupCount (seen : List String) (n : FlowNode) (s : String) :
    (idCheckErrs seen n).countP (fun e => e.message = dupMsg s) =
      if jsTrim n.id = "" then 0
      else if n.id ∈ seen then (if n.id = s then 1 else 0) else 0 := by
  unfold idCheckErrs
  by_cases h1 : jsTrim n.id = ""
  · rw [if_pos h1, if_pos h1]
    have hne : emptyIdMsg ≠ dupMsg s := (dupMsg_ne_others s).1.symm
    simp [List.countP_cons, hne]
  · rw [if_neg h1, if_neg h1]
    by_cases h2 : n.id ∈ seen
    · rw [if_pos h2, if_pos h2]
      by_cases h3 : n.id = s
      · simp [List.countP_cons, h3]
      · have hne : dupMsg n.id ≠ dupMsg s := fun hcon => h3 (dupMsg_inj hcon)
        simp [List.countP_cons, hne, h3]
    · rw [if_neg h2, if_neg h2]
      simp

/-- Running count of duplicate-id errors for a given id over the node loop,
as a function of whether the id is already in the seen-set: every occurrence
after the first (relative to the seen-set) contributes exactly one. -/
theorem nodesLoop_dupCount (nodeIds : List String) (s : String) :
    ∀ (ns : List FlowNode) (seen : List String),
      (nodesLoop nodeIds seen ns).countP (fun e => e.message = dupMsg s) =
        if jsTrim s = "" then 0
        else if s ∈ seen then ns.countP (fun n => n.id = s)
        else ns.countP (fun n => n.id = s) - 1 := by
  intro ns
  induction ns with
  | nil =>
    intro seen
    simp only [nodesLoop, List.countP_nil]
    split
    · rfl
    · split <;> rfl
  | cons n rest ih =>
    intro seen
    simp only [nodesLoop, nodeErrs, List.append_assoc, List.countP_append]
    have hrest := nodeRest_dupCount nodeIds n s
    rw [List.countP_append] at hrest
    have hdesc0 : (descErrs n).countP
        (fun e => e.message = dupMsg s) = 0 := by omega
    have hflat0 : ((n.edges.map (edgeErrs nodeIds n.id)).flatten).countP
        (fun e => e.message = dupMsg s) = 0 := by omega
    rw [idCheck_dupCount, hdesc0, hflat0, ih (n.id :: seen)]
    by_cases hts : jsTrim s = ""
    · rw [if_pos hts, if_pos hts]
      have hid0 : (if jsTrim n.id = "" then 0
          else if n.id ∈ seen then (if n.id = s then 1 else 0) else 0) = 0 := by
        by_cases h1 : jsTrim n.id = ""
        · rw [if_pos h1]
        · rw [if_neg h1]
          by_cases h2 : n.id ∈ seen
          · rw [if_pos h2, if_neg]
            intro hcon
            exact h1 (hcon ▸ hts)
          · rw [if_neg h2]
      omega
    · rw [if_neg hts, if_neg hts]
      by_cases hns : n.id = s
      · have hnotrim : ¬ jsTrim n.id = "" := fun hcon => hts (hns ▸ hcon)
        have hcons : List.countP (fun m => decide (m.id = s)) (n :: rest) =
            List.countP (fun m => decide (m.id = s)) rest + 1 := by
          rw [List.countP_cons, if_pos (decide_eq_true hns)]
        have hmem : s ∈ n.id :: seen := by
          rw [hns]
          exact List.mem_cons_self _ _
        rw [if_pos hmem]
        by_cases h2 : s ∈ seen
        · have hid1 : (if jsTrim n.id = "" then 0
              else if n.id ∈ seen then (if n.id = s then 1 else 0) else 0)
              = 1 := by
            rw [if_neg hnotrim, if_pos (show n.id ∈ seen from hns ▸ h2),
              if_pos hns]
          rw [if_pos h2, hcons]
          omega
        · have hid0 : (if jsTrim n.id = "" then 0
              else if n.id ∈ seen then (if n.id = s then 1 else 0) else 0)
              = 0 := by
            rw [if_neg hnotrim,
              if_neg (show ¬ n.id ∈ seen from fun hc => h2 (hns ▸ hc))]
          rw [if_neg h2, hcons]
          omega
      · have hcons : List.countP (fun m => decide (m.id = s)) (n :: rest) =
            List.countP (fun m => decide (m.id = s)) rest := by
          rw [List.countP_cons, if_neg (by simpa using hns)]
          omega
        have hid0 : (if jsTrim n.id = "" then 0
            else if n.id ∈ seen then (if n.id = s then 1 else 0) else 0)
            = 0 := by
          by_cases h1 : jsTrim n.id = ""
          · rw [if_pos h1]
          · rw [if_neg h1]
            by_cases h3 : n.id ∈ seen
            · rw [if_pos h3, if_neg hns]
            · rw [if_neg h3]
        by_cases h2 : s ∈ seen
        · have hmem : s ∈ n.id :: seen := List.mem_cons_of_mem _ h2
          rw [if_pos hmem, if_pos h2, hcons]
          omega
        · have hmem : ¬ s ∈ n.id :: seen := by
            rw [List.mem_cons]
            rintro (h | h)
            · exact hns h.symm
            · exact h2 h
          rw [if_neg hmem, if_neg h2, hcons]
          omega

/-- The global checks never emit a duplicate-id message. -/
theorem globalErrs_dupCount (nodes : List FlowNode) (start : Option String)
    (s : String) :
    (globalErrs nodes start).countP (fun e => e.message = dupMsg s) = 0 := by
  rw [List.countP_eq_zero]
  intro e he
  simp only [decide_eq_true_eq]
  intro hmsg
  cases start with
  | none =>
    simp only [globalErrs] at he
    rcases List.mem_singleton.mp he with rfl
    exact (dupMsg_ne_others s).2.2.2.2.1 hmsg.symm
  | some t =>
    simp only [globalErrs] at he
    split at he
    · rcases List.mem_singleton.mp he with rfl
      exact (dupMsg_ne_others s).2.2.2.2.1 hmsg.symm
    · split at he
      · cases he
      · rcases List.mem_singleton.mp he with rfl
        exact (dupMsg_ne_others s).2.2.2.2.2.1 hmsg.symm

/-- The reachability pass never emits a duplicate-id message. -/
theorem reachBlock_dupCount (nodes : List FlowNode) (start : Option String)
    (s : String) :
    (reachBlock nodes start).countP (fun e => e.message = dupMsg s) = 0 := by
  rw [List.countP_eq_zero]
  intro e he
  simp only [decide_eq_true_eq]
  intro hmsg
  cases start with
  | none => simp only [reachBlock] at he; cases he
  | some t =>
    simp only [reachBlock] at he
    split at he
    · unfold reachWarns at he
      obtain ⟨n, _, rfl⟩ := List.mem_map.mp he
      exact (dupMsg_ne_others s).2.2.2.2.2.2.2 n.id hmsg.symm
    · cases he

/-- Total duplicate-id error count of `validateFlow` for a given id: zero
for a whitespace-only id, otherwise one per occurrence beyond the first. -/
theorem validateFlow_dupCount (nodes : List FlowNode) (start : Option String)
    (s : String) :
    (validateFlow nodes start).countP (fun e => e.message = dupMsg s) =
      if jsTrim s = "" then 0
      else nodes.countP (fun n => n.id = s) - 1 := by
  simp only [validateFlow, List.countP_append]
  rw [globalErrs_dupCount, reachBlock_dupCount,
    nodesLoop_dupCount (nodes.map (·.id)) s nodes []]
  by_cases hts : jsTrim s = ""
  · rw [if_pos hts, if_pos hts]
  · rw [if_neg hts, if_neg hts, if_neg (List.not_mem_nil s)]
    omega

/-- Empty-id errors carrying a given node id emitted by one id check. -/
theorem idCheck_emptyCount (seen : List String) (n : FlowNode) (s : String) :
    (idCheckErrs seen n).countP
        (fun e => e.message = emptyIdMsg ∧ e.nodeId = some s) =
      if n.id = s ∧ jsTrim n.id = "" then 1 else 0 := by
  unfold idCheckErrs
  by_cases h1 : jsTrim n.id = ""
  · rw [if_pos h1]
    by_cases h2 : n.id = s
    · rw [if_pos ⟨h2, h1⟩]
      simp [List.countP_cons, h2]
    · rw [if_neg (fun hc => h2 hc.1)]
      simp [List.countP_cons, h2]
  · rw [if_neg h1]
    have hrhs : (if n.id = s ∧ jsTrim n.id = "" then 1 else 0) = 0 := by
      rw [if_neg (fun hc : n.id = s ∧ jsTrim n.id = "" => h1 hc.2)]
    rw [hrhs]
    by_cases h2 : n.id ∈ seen
    · rw [if_pos h2]
      have hne : dupMsg n.id ≠ emptyIdMsg := (dupMsg_ne_others n.id).1
      simp [List.countP_cons, hne]
    · rw [if_neg h2]
      rfl

/-- The description and edge checks never emit the empty-id message. -/
theorem nodeRest_emptyCount (nodeIds : List String) (n : FlowNode)
    (s : String) :
    (descErrs n ++ (n.edges.map (edgeErrs nodeIds n.id)).flatten).countP
      (fun e => e.message = emptyIdMsg ∧ e.nodeId = some s) = 0 := by
  rw [List.countP_eq_zero]
  intro e he
  simp only [decide_eq_true_eq]
  rintro ⟨hmsg, -⟩
  rcases List.mem_append.mp he with h | h
  · unfold descErrs at h
    split at h
    · rcases List.mem_singleton.mp h with rfl
      exact emptyIdMsg_ne_others.1 hmsg.symm
    · cases h
  · obtain ⟨l, hl, hel⟩ := List.mem_flatten.mp h
    obtain ⟨ed, _, rfl⟩ := List.mem_map.mp hl
    unfold edgeErrs at hel
    rcases List.mem_append.mp hel with hh | hh
    · split at hh
      · rcases List.mem_singleton.mp hh with rfl
        exact emptyIdMsg_ne_others.2.1 hmsg.symm
      · split at hh
        · cases hh
        · rcases List.mem_singleton.mp hh with rfl
          exact emptyIdMsg_ne_others.2.2.2.2.2.2.1 ed.toNodeId hmsg.symm
    · split at hh
      · rcases List.mem_singleton.mp hh with rfl
        exact emptyIdMsg_ne_others.2.2.1 hmsg.symm
      · cases hh

/-- Empty-id error count for a given node id over the node loop: one per
node whose id equals it and is whitespace-only, independent of the
seen-set. -/
theorem nodesLoop_emptyCount (nodeIds : List String) (s : String) :
    ∀ (ns : List FlowNode) (seen : List String),
      (nodesLoop nodeIds seen ns).countP
          (fun e => e.message = emptyIdMsg ∧ e.nodeId = some s) =
        ns.countP (fun n => n.id = s ∧ jsTrim n.id = "") := by
  intro ns
  induction ns with
  | nil => intro seen; rfl
  | cons n rest ih =>
    intro seen
    simp only [nodesLoop, nodeErrs, List.append_assoc, List.countP_append]
    have hrest := nodeRest_emptyCount nodeIds n s
    rw [List.countP_append] at hrest
    have hdesc0 : (descErrs n).countP
        (fun e => e.message = emptyIdMsg ∧ e.nodeId = some s) = 0 := by omega
    have hflat0 : ((n.edges.map (edgeErrs nodeIds n.id)).flatten).countP
        (fun e => e.message = emptyIdMsg ∧ e.nodeId = some s) = 0 := by omega
    rw [idCheck_emptyCount, hdesc0, hflat0, ih (n.id :: seen),
      List.countP_cons]
    by_cases h : n.id = s ∧ jsTrim n.id = ""
    · rw [if_pos h, if_pos (decide_eq_true h)]
      omega
    · rw [if_neg h, if_neg (by simpa using h)]
      omega

/-- The global checks never emit the empty-id message. -/
theorem globalErrs_emptyCount (nodes : List FlowNode) (start : Option String)
    (s : String) :
    (globalErrs nodes start).countP
      (fun e => e.message = emptyIdMsg ∧ e.nodeId = some s) = 0 := by
  rw [List.countP_eq_zero]
  intro e he
  simp only [decide_eq_true_eq]
  rintro ⟨hmsg, -⟩
  cases start with
  | none =>
    simp only [globalErrs] at he
    rcases List.mem_singleton.mp he with rfl
    exact emptyIdMsg_ne_others.2.2.2.1 hmsg.symm
  | some t =>
    simp only [globalErrs] at he
    split at he
    · rcases List.mem_singleton.mp he with rfl
      exact emptyIdMsg_ne_others.2.2.2.1 hmsg.symm
    · split at he
      · cases he
      · rcases List.mem_singleton.mp he with rfl
        exact emptyIdMsg_ne_others.2.2.2.2.1 hmsg.symm

/-- The reachability pass never emits the empty-id message. -/
theorem reachBlock_emptyCount (nodes : List FlowNode) (start : Option String)
    (s : String) :
    (reachBlock nodes start).countP
      (fun e => e.message = emptyIdMsg ∧ e.nodeId = some s) = 0 := by
  rw [List.countP_eq_zero]
  intro e he
  simp only [decide_eq_true_eq]
  rintro ⟨hmsg, -⟩
  cases start with
  | none => simp only [reachBlock] at he; cases he
  | some t =>
    simp only [reachBlock] at he
    split at he
    · unfold reachWarns at he
      obtain ⟨n, _, rfl⟩ := List.mem_map.mp he
      exact emptyIdMsg_ne_others.2.2.2.2.2.2.2 n.id hmsg.symm
    · cases he

/-- Total empty-id error count of `validateFlow` carrying a given node id. -/
theorem validateFlow_emptyCount (nodes : List FlowNode)
    (start : Option String) (s : String) :
    (validateFlow nodes start).countP
        (fun e => e.message = emptyIdMsg ∧ e.nodeId = some s) =
      nodes.countP (fun n => n.id = s ∧ jsTrim n.id = "") := by
  simp only [validateFlow, List.countP_append]
  rw [globalErrs_emptyCount, reachBlock_emptyCount,
    nodesLoop_emptyCount (nodes.map (·.id)) s nodes []]
  omega

/-- C4: for a non-whitespace id, `validateFlow` emits one duplicate-id error
per occurrence beyond the first — and the same already holds after
processing any prefix of the node list, which is exactly the behaviour of a
seen-set updated after each node's id check: the first occurrence is never
flagged, each later occurrence is flagged at its own iteration. -/
theorem validateFlow_dupDetection (nodes : List FlowNode)
    (start : Option String) (s : String) (hs : jsTrim s ≠ "") :
    ((validateFlow nodes start).countP (fun e => e.message = dupMsg s) =
      nodes.countP (fun n => n.id = s) - 1) ∧
    (∀ i : Nat,
      (nodesLoop (nodes.map (·.id)) [] (nodes.take i)).countP
          (fun e => e.message = dupMsg s) =
        (nodes.take i).countP (fun n => n.id = s) - 1) := by
  constructor
  · rw [validateFlow_dupCount, if_neg hs]
  · intro i
    rw [nodesLoop_dupCount (nodes.map (·.id)) s (nodes.take i) [],
      if_neg hs, if_neg (List.not_mem_nil s)]

/-- Witness for `validateFlow_dupDetection`: three nodes with id `"x"`
produce exactly two duplicate-id errors, and after processing only the
first two nodes exactly one had been produced. -/
theorem validateFlow_dupDetection_witness :
    ((validateFlow [nodeX, nodeX, nodeX] none).countP
        (fun e => e.message = dupMsg "x") = 2) ∧
    ((nodesLoop ([nodeX, nodeX, nodeX].map (·.id)) []
          ([nodeX, nodeX, nodeX].take 2)).countP
        (fun e => e.message = dupMsg "x") = 1) := by
  have h := validateFlow_dupDetection [nodeX, nodeX, nodeX] none "x"
    (by decide)
  refine ⟨?_, ?_⟩
  · rw [h.1]
    decide
  · rw [h.2 2]
    decide

/-- C10: a whitespace-only id always receives the empty-id error (one per
node carrying it) and never a duplicate-id error, even when repeated; and
an id occurring at most once — e.g. one of two ids differing only in
surrounding whitespace — is never reported as a duplicate, because
duplicate detection compares untrimmed ids. -/
theorem validateFlow_whitespaceIds (nodes : List FlowNode)
    (start : Option String) :
    (∀ s, jsTrim s = "" →
      ((validateFlow nodes start).countP
          (fun e => e.message = emptyIdMsg ∧ e.nodeId = some s) =
        nodes.countP (fun n => n.id = s)) ∧
      (validateFlow nodes start).countP
          (fun e => e.message = dupMsg s) = 0) ∧
    (∀ t, nodes.countP (fun n => n.id = t) ≤ 1 →
      (validateFlow nodes start).countP
        (fun e => e.message = dupMsg t) = 0) := by
  constructor
  · intro s hstrim
    constructor
    · rw [validateFlow_emptyCount]
      apply List.countP_congr
      intro n _
      by_cases h : n.id = s
      · simp [h, hstrim]
      · simp [h]
    · rw [validateFlow_dupCount, if_pos hstrim]
  · intro t hcount
    by_cases ht : jsTrim t = ""
    · rw [validateFlow_dupCount, if_pos ht]
    · rw [validateFlow_dupCount, if_neg ht]
      omega

/-- Witness for `validateFlow_whitespaceIds`: two nodes with the
whitespace-only id `" "` get two empty-id errors and no duplicate error,
and the ids `" a"` and `"a"` are not flagged as duplicates. -/
theorem validateFlow_whitespaceIds_witness :
    ((validateFlow [nodeWs, nodeWs] none).countP
        (fun e => e.message = emptyIdMsg ∧ e.nodeId = some " ") = 2) ∧
    ((validateFlow [nodeWs, nodeWs] none).countP
        (fun e => e.message = dupMsg " ") = 0) ∧
    ((validateFlow [nodeX, nodeWs] none).countP
        (fun e => e.message = dupMsg "x") = 0) := by
  have h := (validateFlow_whitespaceIds [nodeWs, nodeWs] none).1 " "
    (by decide)
  have h2 := (validateFlow_whitespaceIds [nodeX, nodeWs] none).2 "x"
    (by decide)
  refine ⟨?_, h.2, h2⟩
  rw [h.1]
  decide

/-- C9: `updateEdge` leaves the start pointer untouched, leaves every node
whose id differs from `nodeId` untouched, and on matching nodes changes only
the edge whose id is `edgeId`, preserving edge order and every other node
field; if no node matches, or no edge on the matching nodes matches, the
whole state is unchanged. -/
theorem updateEdge_frame (st : FlowState) (nodeId edgeId : String)
    (p : EdgePatch) :
    (updateEdge st nodeId edgeId p).startNodeId = st.startNodeId ∧
    (updateEdge st nodeId edgeId p).nodes.length = st.nodes.length ∧
    (∀ i (h : i < st.nodes.length),
      (st.nodes[i].id ≠ nodeId →
        (updateEdge st nodeId edgeId p).nodes.get
          ⟨i, by simpa [updateEdge] using h⟩ = st.nodes[i]) ∧
      ((updateEdge st nodeId edgeId p).nodes.get
        ⟨i, by simpa [updateEdge] using h⟩).id = st.nodes[i].id ∧
      ((updateEdge st nodeId edgeId p).nodes.get
        ⟨i, by simpa [updateEdge] using h⟩).description =
          st.nodes[i].description ∧
      ((updateEdge st nodeId edgeId p).nodes.get
        ⟨i, by simpa [updateEdge] using h⟩).prompt = st.nodes[i].prompt ∧
      ((updateEdge st nodeId edgeId p).nodes.get
        ⟨i, by simpa [updateEdge] using h⟩).x = st.nodes[i].x ∧
      ((updateEdge st nodeId edgeId p).nodes.get
        ⟨i, by simpa [updateEdge] using h⟩).y = st.nodes[i].y ∧
      ((updateEdge st nodeId edgeId p).nodes.get
        ⟨i, by simpa [updateEdge] using h⟩).edges.length =
        st.nodes[i].edges.length ∧
      (∀ j (hj : j < st.nodes[i].edges.length),
        st.nodes[i].edges[j].id ≠ edgeId →
          ((updateEdge st nodeId edgeId p).nodes.get
            ⟨i, by simpa [updateEdge] using h⟩).edges.get
            ⟨j, by
              simp only [List.get_eq_getElem, updateEdge, List.getElem_map]
              split <;> simpa using hj⟩ = st.nodes[i].edges[j])) ∧
    ((∀ n ∈ st.nodes, n.id = nodeId → ∀ e ∈ n.edges, e.id ≠ edgeId) →
      updateEdge st nodeId edgeId p = st) := by
  refine ⟨rfl, by simp [updateEdge], ?_, ?_⟩
  · intro i h
    simp only [List.get_eq_getElem, updateEdge, List.getElem_map]
    constructor
    · intro hne
      simp [hne]
    · split
      · refine ⟨rfl, rfl, rfl, rfl, rfl, by simp, ?_⟩
        intro j hj hne
        simp only [List.get_eq_getElem, List.getElem_map]
        simp [hne]
      · exact ⟨rfl, rfl, rfl, rfl, rfl, rfl, fun j hj _ => rfl⟩
  · intro hnone
    have hnodes : (updateEdge st nodeId edgeId p).nodes = st.nodes := by
      simp only [updateEdge]
      rw [List.map_congr_left, List.map_id]
      intro n hn
      by_cases hid : n.id = nodeId
      · rw [if_pos hid]
        have hmap : n.edges.map
            (fun e => if e.id = edgeId then applyEdgePatch e p else e) =
            n.edges := by
          rw [List.map_congr_left, List.map_id]
          intro e he
          have := hnone n hn hid e he
          simp [this]
        rw [hmap]
        rfl
      · rw [if_neg hid]
        rfl
    cases st with
    | mk ns s => simpa [updateEdge] using congrArg (FlowState.mk · s) hnodes

/-- Witness for `updateEdge_frame` at a concrete state. -/
theorem updateEdge_frame_witness :
    updateEdge { nodes := [{ id := "a", description := "", prompt := "",
                             edges := [{ id := "e1", toNodeId := "a",
                                         condition := "c",
                                         parameters := [] }],
                             x := 0, y := 0 }],
                 startNodeId := some "a" } "a" "zz" {} =
      { nodes := [{ id := "a", description := "", prompt := "",
                    edges := [{ id := "e1", toNodeId := "a", condition := "c",
                                parameters := [] }],
                    x := 0, y := 0 }],
        startNodeId := some "a" } :=
  (updateEdge_frame
    { nodes := [{ id := "a", description := "", prompt := "",
                  edges := [{ id := "e1", toNodeId := "a", condition := "c",
                              parameters := [] }],
                  x := 0, y := 0 }],
      startNodeId := some "a" } "a" "zz" {}).2.2.2 (by decide)

/-- C2 counterexample: renaming a node that owns a self-loop does *not*
rewrite the self-loop's target. With one node `"a"` whose single edge targets
`"a"`, `updateNode "a" {id := "b"}` leaves that edge targeting `"a"`,
although the claim requires it to target `"b"`. -/
theorem updateNode_selfLoop_counterexample :
    ((updateNode
        { nodes := [{ id := "a", description := "", prompt := "",
                      edges := [{ id := "e1", toNodeId := "a",
                                  condition := "c", parameters := [] }],
                      x := 0, y := 0 }],
          startNodeId := some "a" } "a"
        { id := some "b" }).nodes.map (fun n => n.edges.map (·.toNodeId)) =
      [["a"]]) ∧ ("a" : String) ≠ "b" := by
  constructor
  · rfl
  · decide

/-- C2 (amended): `updateNode old {id := newId}` with `newId` non-empty and
distinct from `old` rewrites, on every node whose id differs from `old`,
exactly the edges that targeted `old` to target `newId` (preserving their
other fields, count and order); the renamed node keeps its own edge list
unchanged (a self-loop keeps the old target) and gets id `newId`; the start
pointer becomes `newId` exactly when it was `old`. -/
theorem updateNode_rename (st : FlowState) (old : String) (p : NodePatch)
    (newId : String) (hp : p.id = some newId) (hne : newId ≠ "") :
    (updateNode st old p).nodes.length = st.nodes.length ∧
    (∀ i (h : i < st.nodes.length),
      ((updateNode st old p).nodes.get
        ⟨i, by simpa [updateNode] using h⟩).edges.length =
        st.nodes[i].edges.length ∧
      (st.nodes[i].id ≠ old →
        ((updateNode st old p).nodes.get
          ⟨i, by simpa [updateNode] using h⟩).id = st.nodes[i].id ∧
        ((updateNode st old p).nodes.get
          ⟨i, by simpa [updateNode] using h⟩).edges =
          st.nodes[i].edges.map (fun e =>
            if e.toNodeId = old then { e with toNodeId := newId } else e)) ∧
      (st.nodes[i].id = old →
        ((updateNode st old p).nodes.get
          ⟨i, by simpa [updateNode] using h⟩).id = newId ∧
        ((updateNode st old p).nodes.get
          ⟨i, by simpa [updateNode] using h⟩).edges = st.nodes[i].edges)) ∧
    ((updateNode st old p).startNodeId =
      if st.startNodeId = some old then some newId else st.startNodeId) := by
  refine ⟨by simp [updateNode], ?_, ?_⟩
  · intro i h
    simp only [List.get_eq_getElem, updateNode, List.getElem_map, hp]
    by_cases hid : st.nodes[i].id = old
    · rw [if_pos hid]
      exact ⟨rfl, fun hc => absurd hid hc, fun _ => ⟨by simp [applyNodePatch, hp], rfl⟩⟩
    · rw [if_neg hid]
      by_cases hguard : newId ≠ "" ∧
          st.nodes[i].edges.any (fun e => e.toNodeId = old)
      · rw [if_pos hguard]
        exact ⟨by simp, fun _ => ⟨rfl, rfl⟩, fun hc => absurd hc hid⟩
      · rw [if_neg hguard]
        have hnot : ∀ e ∈ st.nodes[i].edges, e.toNodeId ≠ old := by
          intro e he hcon
          exact hguard ⟨hne, List.any_eq_true.mpr ⟨e, he, by simp [hcon]⟩⟩
        have hmap : st.nodes[i].edges.map (fun e =>
            if e.toNodeId = old then { e with toNodeId := newId } else e) =
            st.nodes[i].edges := by
          rw [List.map_congr_left, List.map_id]
          intro e he
          simp [hnot e he]
        exact ⟨rfl, fun _ => ⟨rfl, hmap.symm⟩, fun hc => absurd hc hid⟩
  · simp [updateNode, hp, hne]

/-- Witness for `updateNode_rename`: rename `"a"` to `"b"` where another node
`"x"` has an edge to `"a"`. -/
theorem updateNode_rename_witness :
    (updateNode
        { nodes := [{ id := "a", description := "", prompt := "", edges := [],
                      x := 0, y := 0 },
                    { id := "x", description := "", prompt := "",
                      edges := [{ id := "e1", toNodeId := "a",
                                  condition := "c", parameters := [] }],
                      x := 0, y := 0 }],
          startNodeId := some "a" } "a"
        { id := some "b" }).nodes.length = 2 :=
  (updateNode_rename
    { nodes := [{ id := "a", description := "", prompt := "", edges := [],
                  x := 0, y := 0 },
                { id := "x", description := "", prompt := "",
                  edges := [{ id := "e1", toNodeId := "a", condition := "c",
                              parameters := [] }],
                  x := 0, y := 0 }],
      startNodeId := some "a" } "a" { id := some "b" } "b" rfl
    (by decide)).1

/-- C3, claim part: after `deleteNode id`, no node with that id remains, no
surviving edge targets it, survivors keep their other edges in order, the
start pointer is cleared exactly when it referenced the deleted id, and when
no node carried the id no node is removed. -/
theorem deleteNode_spec (st : FlowState) (id : String) :
    (∀ n ∈ (deleteNode st id).nodes, n.id ≠ id) ∧
    (∀ n ∈ (deleteNode st id).nodes, ∀ e ∈ n.edges, e.toNodeId ≠ id) ∧
    ((deleteNode st id).nodes.map (fun n => (n.id, n.edges)) =
      (st.nodes.filter (fun n => n.id ≠ id)).map
        (fun n => (n.id, n.edges.filter (fun e => e.toNodeId ≠ id)))) ∧
    ((deleteNode st id).startNodeId =
      if st.startNodeId = some id then none else st.startNodeId) ∧
    ((∀ n ∈ st.nodes, n.id ≠ id) →
      (deleteNode st id).nodes.length = st.nodes.length) := by
  refine ⟨?_, ?_, ?_, rfl, ?_⟩
  · intro n hn
    simp only [deleteNode, List.mem_map, List.mem_filter] at hn
    obtain ⟨m, ⟨_, hm⟩, rfl⟩ := hn
    simpa using hm
  · intro n hn e he
    simp only [deleteNode, List.mem_map, List.mem_filter] at hn
    obtain ⟨m, _, rfl⟩ := hn
    simp only [List.mem_filter] at he
    simpa using he.2
  · simp [deleteNode]
  · intro h
    simp only [deleteNode, List.length_map]
    rw [List.filter_eq_self.mpr]
    intro n hn
    simpa using h n hn

/-- Witness for `deleteNode_spec` at a concrete state. -/
theorem deleteNode_spec_witness :
    ((∀ n ∈ [({ id := "a", description := "", prompt := "",
                edges := [], x := 0, y := 0 } : FlowNode)], n.id ≠ "b") ∧
      (deleteNode { nodes := [{ id := "a", description := "", prompt := "",
                                edges := [], x := 0, y := 0 }],
                    startNodeId := some "a" } "b").nodes.length = 1) :=
  ⟨by decide,
    (deleteNode_spec
      { nodes := [{ id := "a", description := "", prompt := "", edges := [],
                    x := 0, y := 0 }],
        startNodeId := some "a" } "b").2.2.2.2 (by decide)⟩

end Flowcraft

namespace Flowcraft

/-- C8: on `[1/4, 5/2]` a zoom-in tick computes `min (5/2) (z * 1.08)` and a
zoom-out tick `max (1/4) (z * 0.92)`, both leaving pan unchanged; from zoom
1, one hundred zoom-in ticks end exactly at `5/2`, and no iterate ever
exceeds `5/2`. -/
theorem handleWheel_spec :
    (∀ (v : CanvasView) (d : ℚ), ¬ d > 0 → 1/4 ≤ v.zoom → v.zoom ≤ 5/2 →
      (handleWheel d v).zoom = min (5/2) (v.zoom * (27/25)) ∧
      (handleWheel d v).panX = v.panX ∧ (handleWheel d v).panY = v.panY) ∧
    (∀ (v : CanvasView) (d : ℚ), d > 0 → 1/4 ≤ v.zoom → v.zoom ≤ 5/2 →
      (handleWheel d v).zoom = max (1/4) (v.zoom * (23/25)) ∧
      (handleWheel d v).panX = v.panX ∧ (handleWheel d v).panY = v.panY) ∧
    (((handleWheel (-1))^[100] ⟨0, 0, 1⟩).zoom = 5/2) ∧
    (∀ k : Nat, ((handleWheel (-1))^[k] ⟨0, 0, 1⟩).zoom ≤ 5/2) := by
  refine ⟨?_, ?_, ?_, ?_⟩
  · intro v d hd hlo _
    refine ⟨?_, rfl, rfl⟩
    simp only [handleWheel]
    rw [if_neg hd]
    have hpos : (0 : ℚ) ≤ v.zoom := le_trans (by norm_num) hlo
    have hup : v.zoom ≤ v.zoom * (27/25) :=
      le_mul_of_one_le_right hpos (by norm_num)
    rw [max_eq_right (le_trans hlo hup)]
  · intro v d hd hlo hhi
    refine ⟨?_, rfl, rfl⟩
    simp only [handleWheel]
    rw [if_pos hd]
    have hpos : (0 : ℚ) ≤ v.zoom := le_trans (by norm_num) hlo
    have hdown : v.zoom * (23/25) ≤ v.zoom :=
      mul_le_of_le_one_right hpos (by norm_num)
    rw [min_eq_right (max_le (by norm_num) (le_trans hdown hhi))]
  · have h12 : (handleWheel (-1))^[12] ⟨0, 0, 1⟩ =
        (⟨0, 0, 5/2⟩ : CanvasView) := by
      show handleWheel (-1) (handleWheel (-1) (handleWheel (-1)
        (handleWheel (-1) (handleWheel (-1) (handleWheel (-1)
        (handleWheel (-1) (handleWheel (-1) (handleWheel (-1)
        (handleWheel (-1) (handleWheel (-1) (handleWheel (-1)
          ⟨0, 0, 1⟩))))))))))) = _
      simp only [handleWheel]
      norm_num [min_def, max_def]
    have hfix : handleWheel (-1) ⟨0, 0, 5/2⟩ =
        (⟨0, 0, 5/2⟩ : CanvasView) := by
      simp only [handleWheel]
      norm_num [min_def, max_def]
    have h100 : (handleWheel (-1))^[100] ⟨0, 0, 1⟩ =
        (⟨0, 0, 5/2⟩ : CanvasView) := by
      have hsplit : (100 : Nat) = 88 + 12 := rfl
      rw [hsplit, Function.iterate_add_apply, h12,
        Function.iterate_fixed hfix]
    rw [h100]
  · intro k
    cases k with
    | zero => norm_num
    | succ k =>
      rw [Function.iterate_succ_apply']
      exact min_le_left _ _

/-- Witness for `handleWheel_spec` at zoom 1 with one tick each way. -/
theorem handleWheel_spec_witness :
    (handleWheel (-1) ⟨0, 0, 1⟩).zoom = min (5/2) (1 * (27/25)) ∧
    (handleWheel 1 ⟨0, 0, 1⟩).zoom = max (1/4) (1 * (23/25)) :=
  ⟨(handleWheel_spec.1 ⟨0, 0, 1⟩ (-1) (by norm_num) (by norm_num)
      (by norm_num)).1,
    (handleWheel_spec.2.1 ⟨0, 0, 1⟩ 1 (by norm_num) (by norm_num)
      (by norm_num)).1⟩

end Flowcraft

namespace Flowcraft

/-- C6: an exported edge has a `parameters` field iff the source edge's
parameter map is non-empty (and then it is that map verbatim); consequently
after `connectNodes fromId toId` the exported node for `fromId` exists and
its last edge serializes as condition `"default"`, target `toId`, and no
`parameters` key. -/
theorem export_parameters_iff (nodes : List FlowNode) (start : Option String)
    (fromId toId : String) (c : Nat) :
    ((buildExportedFlow nodes start).nodes = nodes.map exportNode) ∧
    (∀ e : FlowEdge,
      ((exportEdge e).parameters ≠ none ↔ e.parameters ≠ []) ∧
      (∀ ps, (exportEdge e).parameters = some ps → ps = e.parameters)) ∧
    ((∃ n ∈ nodes, n.id = fromId) →
      ∃ en ∈ (buildExportedFlow
          (connectNodes ⟨nodes, start⟩ fromId toId c).1.nodes
          (connectNodes ⟨nodes, start⟩ fromId toId c).1.startNodeId).nodes,
        en.id = fromId) ∧
    (∀ en ∈ (buildExportedFlow
        (connectNodes ⟨nodes, start⟩ fromId toId c).1.nodes
        (connectNodes ⟨nodes, start⟩ fromId toId c).1.startNodeId).nodes,
      en.id = fromId →
        en.edges.getLast? =
          some { to_node_id := toId, condition := "default",
                 parameters := none }) := by
  refine ⟨rfl, ?_, ?_, ?_⟩
  · intro e
    constructor
    · by_cases h : 0 < e.parameters.length
      · simp only [exportEdge, if_pos h]
        exact ⟨fun _ => List.length_pos.mp h, fun _ => by simp⟩
      · simp only [exportEdge, if_neg h]
        have hnil : e.parameters = [] := List.length_eq_zero.mp (by omega)
        exact ⟨fun hc => absurd rfl hc, fun hc => absurd hnil hc⟩
    · intro ps hps
      unfold exportEdge at hps
      split at hps
      · cases hps
        rfl
      · cases hps
  · rintro ⟨n, hn, hid⟩
    refine ⟨exportNode { n with edges := n.edges ++
      [{ id := generateEdgeId c, toNodeId := toId, condition := "default",
         parameters := [] }] }, ?_, ?_⟩
    · simp only [buildExportedFlow, connectNodes, List.mem_map]
      exact ⟨_, ⟨n, hn, by rw [if_pos hid]⟩, rfl⟩
    · simpa [exportNode] using hid
  · intro en hen hid
    simp only [buildExportedFlow, connectNodes, List.mem_map] at hen
    obtain ⟨m, hm, rfl⟩ := hen
    obtain ⟨n, hn, rfl⟩ := hm
    by_cases hni : n.id = fromId
    · rw [if_pos hni]
      simp only [exportNode, List.map_append, List.map_cons, List.map_nil]
      rw [List.getLast?_concat]
      rfl
    · rw [if_neg hni] at hid
      exact absurd hid hni

/-- Witness for `export_parameters_iff`: one node `"A"`, then
`connectNodes "A" "B"` and export. -/
theorem export_parameters_iff_witness :
    ∃ en ∈ (buildExportedFlow
        (connectNodes ⟨[nodeA], none⟩ "A" "B" 0).1.nodes
        (connectNodes ⟨[nodeA], none⟩ "A" "B" 0).1.startNodeId).nodes,
      en.id = "A" ∧ en.edges.getLast? =
        some { to_node_id := "B", condition := "default",
               parameters := none } := by
  obtain ⟨en, hen, hid⟩ :=
    (export_parameters_iff [nodeA] none "A" "B" 0).2.2.1
      ⟨nodeA, List.mem_singleton_self _, rfl⟩
  exact ⟨en, hen, hid,
    (export_parameters_iff [nodeA] none "A" "B" 0).2.2.2 en hen hid⟩

end Flowcraft

namespace Flowcraft

/-- For a non-null edge entry the mapper builds the edge and recurses. -/
theorem impEdges_cons_notNull (c : Nat) (e : Json) (rest : List Json)
    (he : isNullJson e = false) :
    impEdges c (e :: rest) =
      match impEdges (c + 1) rest with
      | .error er => .error er
      | .ok (res, c') =>
        .ok ({ id := generateEdgeId c,
               toNodeId := jsCoalesce (getF e "to_node_id") (.str ""),
               condition := jsCoalesce (getF e "condition") (.str ""),
               parameters := jsCoalesce (getF e "parameters") (.obj []) }
          :: res, c') := by
  cases e
  case null => simp [isNullJson] at he
  all_goals rfl

/-- For a non-null node entry the mapper reads the fields and recurses. -/
theorem impNode_notNull (c i : Nat) (n : Json)
    (hn : isNullJson n = false) :
    impNode c i n =
      match impNodeEdges
          (if jsTruthy (getF n "id") then c else c + 1) n with
      | .error er => .error er
      | .ok (res, c₂) =>
        .ok ({ id :=
                 if jsTruthy (getF n "id") then
                   jsCoalesce (getF n "id") (.str "")
                 else .str (generateNodeId c),
               description := jsCoalesce (getF n "description") (.str ""),
               prompt := jsCoalesce (getF n "prompt") (.str ""),
               edges := res,
               x := snapToGrid (100 + (Int.ofNat (i % 4)) * 260),
               y := snapToGrid (100 + (Int.ofNat (i / 4)) * 140) }, c₂) := by
  cases n
  case null => simp [isNullJson] at hn
  all_goals rfl

/-- A non-null `badNode` reduces to its `edges`-field analysis. -/
theorem badNode_notNull (n : Json) (hn : isNullJson n = false) :
    badNode n =
      (match getF n "edges" with
       | none => false
       | some .null => false
       | some (.arr es) => es.any isNullJson
       | some _ => true) := by
  cases n
  case null => simp [isNullJson] at hn
  all_goals rfl

/-- The edge mapper throws exactly when some edge entry is null. -/
theorem impEdges_error_iff :
    ∀ (es : List Json) (c : Nat),
      (∃ er, impEdges c es = .error er) ↔ es.any isNullJson = true := by
  intro es
  induction es with
  | nil =>
    intro c
    constructor
    · rintro ⟨er, her⟩
      simp [impEdges] at her
    · intro h
      simp at h
  | cons e rest ih =>
    intro c
    by_cases hne : isNullJson e = true
    · have he : e = Json.null := by
        cases e
        case null => rfl
        all_goals simp [isNullJson] at hne
      subst he
      constructor
      · intro _
        simp [isNullJson]
      · intro _
        exact ⟨.typeError, rfl⟩
    · have he : isNullJson e = false := Bool.eq_false_iff.mpr hne
      rw [impEdges_cons_notNull c e rest he]
      cases hrec : impEdges (c + 1) rest with
      | error er =>
        constructor
        · intro _
          have hany := (ih (c + 1)).mp ⟨er, hrec⟩
          simp [hany]
        · intro _
          exact ⟨er, rfl⟩
      | ok pr =>
        obtain ⟨res, c'⟩ := pr
        constructor
        · rintro ⟨er', her'⟩
          exact Except.noConfusion her'
        · intro h
          have hany : rest.any isNullJson = true := by
            simpa [he] using h
          obtain ⟨er, her⟩ := (ih (c + 1)).mpr hany
          exact absurd (hrec.symm.trans her)
            (fun hc => Except.noConfusion hc)

/-- The `edges`-field handling of one node throws exactly when `badNode`
says so (for non-null entries). -/
theorem impNodeEdges_error_iff (c : Nat) (n : Json)
    (hn : isNullJson n = false) :
    (∃ er, impNodeEdges c n = .error er) ↔ badNode n = true := by
  rw [badNode_notNull n hn]
  unfold impNodeEdges
  cases hE : getF n "edges" with
  | none =>
    constructor
    · rintro ⟨er, her⟩
      exact Except.noConfusion her
    · intro h
      simp at h
  | some v =>
    cases v with
    | null =>
      constructor
      · rintro ⟨er, her⟩
        exact Except.noConfusion her
      · intro h
        simp at h
    | arr es => exact impEdges_error_iff es c
    | bool b => exact ⟨fun _ => rfl, fun _ => ⟨.typeError, rfl⟩⟩
    | num m => exact ⟨fun _ => rfl, fun _ => ⟨.typeError, rfl⟩⟩
    | str s => exact ⟨fun _ => rfl, fun _ => ⟨.typeError, rfl⟩⟩
    | obj fs => exact ⟨fun _ => rfl, fun _ => ⟨.typeError, rfl⟩⟩

/-- One node mapping throws exactly on a bad node entry. -/
theorem impNode_error_iff (c i : Nat) (n : Json) :
    (∃ er, impNode c i n = .error er) ↔ badNode n = true := by
  by_cases hnull : isNullJson n = true
  · have hn : n = Json.null := by
      cases n
      case null => rfl
      all_goals simp [isNullJson] at hnull
    subst hn
    exact ⟨fun _ => rfl, fun _ => ⟨.typeError, rfl⟩⟩
  · have hn : isNullJson n = false := Bool.eq_false_iff.mpr hnull
    rw [impNode_notNull c i n hn]
    cases hEd : impNodeEdges
        (if jsTruthy (getF n "id") then c else c + 1) n with
    | error er =>
      constructor
      · intro _
        exact (impNodeEdges_error_iff _ n hn).mp ⟨er, hEd⟩
      · intro _
        exact ⟨er, rfl⟩
    | ok pr =>
      obtain ⟨res, c₂⟩ := pr
      constructor
      · rintro ⟨er, her⟩
        exact Except.noConfusion her
      · intro h
        obtain ⟨er, her⟩ := (impNodeEdges_error_iff _ n hn).mpr h
        exact absurd (hEd.symm.trans her) (fun hc => Except.noConfusion hc)

/-- The node loop throws exactly when some node entry is bad. -/
theorem impNodesLoop_error_iff :
    ∀ (ns : List Json) (i c : Nat),
      (∃ er, impNodesLoop i c ns = .error er) ↔
        ns.any badNode = true := by
  intro ns
  induction ns with
  | nil =>
    intro i c
    constructor
    · rintro ⟨er, her⟩
      simp [impNodesLoop] at her
    · intro h
      simp at h
  | cons n rest ih =>
    intro i c
    cases hN : impNode c i n with
    | error er =>
      have heq : impNodesLoop i c (n :: rest) = .error er := by
        simp only [impNodesLoop, hN]
      rw [heq]
      constructor
      · intro _
        have hb := (impNode_error_iff c i n).mp ⟨er, hN⟩
        simp [hb]
      · intro _
        exact ⟨er, rfl⟩
    | ok pr =>
      obtain ⟨rn, c'⟩ := pr
      have heq : impNodesLoop i c (n :: rest) =
          match impNodesLoop (i + 1) c' rest with
          | .error er => .error er
          | .ok (rns, c'') => .ok (rn :: rns, c'') := by
        simp only [impNodesLoop, hN]
      rw [heq]
      have hbn : badNode n = false := by
        cases hb : badNode n
        · rfl
        · obtain ⟨er, her⟩ := (impNode_error_iff c i n).mpr hb
          exact absurd (hN.symm.trans her)
            (fun hc => Except.noConfusion hc)
      cases hrec : impNodesLoop (i + 1) c' rest with
      | error er =>
        constructor
        · intro _
          simp [hbn, (ih (i + 1) c').mp ⟨er, hrec⟩]
        · intro _
          exact ⟨er, rfl⟩
      | ok pr2 =>
        obtain ⟨rns, c''⟩ := pr2
        constructor
        · rintro ⟨er, her⟩
          exact Except.noConfusion her
        · intro h
          have hany : rest.any badNode = true := by simpa [hbn] using h
          obtain ⟨er, her⟩ := (ih (i + 1) c').mpr hany
          exact absurd (hrec.symm.trans her)
            (fun hc => Except.noConfusion hc)

/-- For a parsed non-null document the import reduces to the `nodes`-field
analysis. -/
theorem impFlowTop_notNull (c : Nat) (d : Json)
    (hd : isNullJson d = false) :
    impFlowTop c (some d) =
      match getF d "nodes" with
      | some (.arr ns) =>
        (match impNodesLoop 0 c ns with
         | .error er => .error er
         | .ok (rns, c') =>
           .ok (rns,
             jsCoalesce (jsCoalesceO (getF d "start_node_id")
               (rns.head?.map (fun r => r.id))) Json.null,
             c'))
      | _ => .error .missingNodes := by
  cases d
  case null => simp [isNullJson] at hd
  all_goals rfl

/-- For a parsed non-null document `impMalformed` reduces likewise. -/
theorem impMalformed_notNull (d : Json) (hd : isNullJson d = false) :
    impMalformed (some d) =
      (match getF d "nodes" with
       | some (.arr ns) => ns.any badNode
       | _ => true) := by
  cases d
  case null => simp [isNullJson] at hd
  all_goals rfl

end Flowcraft

namespace Flowcraft

/-- A non-null document with an array `nodes` field reduces the import to
the node loop. -/
theorem impFlowTop_nodesArr (c : Nat) (d : Json)
    (hd : isNullJson d = false) (ns : List Json)
    (hN : getF d "nodes" = some (Json.arr ns)) :
    impFlowTop c (some d) =
      match impNodesLoop 0 c ns with
      | .error er => .error er
      | .ok (rns, c') =>
        .ok (rns,
          jsCoalesce (jsCoalesceO (getF d "start_node_id")
            (rns.head?.map (fun r => r.id))) Json.null,
          c') := by
  rw [impFlowTop_notNull c d hd, hN]

/-- A non-null document with an array `nodes` field is malformed exactly
when some node entry is bad. -/
theorem impMalformed_nodesArr (d : Json) (hd : isNullJson d = false)
    (ns : List Json) (hN : getF d "nodes" = some (Json.arr ns)) :
    impMalformed (some d) = ns.any badNode := by
  rw [impMalformed_notNull d hd, hN]

/-- C7 (amended): `importFlow` throws exactly on a malformed input —
unparseable text, a null document, a missing or non-array `nodes` field, a
null node entry, a node with a present non-null non-array `edges` value, or
a null edge entry; and whenever it throws, the store state is exactly what
it was before (`loadFlow` is never reached). -/
theorem flowImport_failure (c : Nat) (input : Option Json) :
    ((∃ er, impFlowTop c input = .error er) ↔
      impMalformed input = true) ∧
    (∀ st : RawFlowState, (∃ er, impFlowTop c input = .error er) →
      handleImport st c input = st) := by
  constructor
  · cases input with
    | none => exact ⟨fun _ => rfl, fun _ => ⟨.parseError, rfl⟩⟩
    | some d =>
      by_cases hd : isNullJson d = true
      · have hnull : d = Json.null := by
          cases d
          case null => rfl
          all_goals simp [isNullJson] at hd
        subst hnull
        exact ⟨fun _ => rfl, fun _ => ⟨.typeError, rfl⟩⟩
      · have hdn : isNullJson d = false := Bool.eq_false_iff.mpr hd
        cases hN : getF d "nodes" with
        | none =>
          have heq : impFlowTop c (some d) = .error .missingNodes := by
            rw [impFlowTop_notNull c d hdn, hN]
          have hm : impMalformed (some d) = true := by
            rw [impMalformed_notNull d hdn, hN]
          rw [heq, hm]
          exact ⟨fun _ => rfl, fun _ => ⟨.missingNodes, rfl⟩⟩
        | some v =>
          cases v with
          | arr ns =>
            rw [impFlowTop_nodesArr c d hdn ns hN,
              impMalformed_nodesArr d hdn ns hN]
            cases hLoop : impNodesLoop 0 c ns with
            | error er =>
              constructor
              · intro _
                exact (impNodesLoop_error_iff ns 0 c).mp ⟨er, hLoop⟩
              · intro _
                exact ⟨er, rfl⟩
            | ok pr =>
              obtain ⟨rns, c'⟩ := pr
              constructor
              · rintro ⟨er, her⟩
                exact Except.noConfusion her
              · intro h
                obtain ⟨er, her⟩ := (impNodesLoop_error_iff ns 0 c).mpr h
                exact absurd (hLoop.symm.trans her)
                  (fun hc => Except.noConfusion hc)
          | null =>
            have heq : impFlowTop c (some d) = .error .missingNodes := by
              rw [impFlowTop_notNull c d hdn, hN]
            have hm : impMalformed (some d) = true := by
              rw [impMalformed_notNull d hdn, hN]
            rw [heq, hm]
            exact ⟨fun _ => rfl, fun _ => ⟨.missingNodes, rfl⟩⟩
          | bool b =>
            have heq : impFlowTop c (some d) = .error .missingNodes := by
              rw [impFlowTop_notNull c d hdn, hN]
            have hm : impMalformed (some d) = true := by
              rw [impMalformed_notNull d hdn, hN]
            rw [heq, hm]
            exact ⟨fun _ => rfl, fun _ => ⟨.missingNodes, rfl⟩⟩
          | num m =>
            have heq : impFlowTop c (some d) = .error .missingNodes := by
              rw [impFlowTop_notNull c d hdn, hN]
            have hm : impMalformed (some d) = true := by
              rw [impMalformed_notNull d hdn, hN]
            rw [heq, hm]
            exact ⟨fun _ => rfl, fun _ => ⟨.missingNodes, rfl⟩⟩
          | str s =>
            have heq : impFlowTop c (some d) = .error .missingNodes := by
              rw [impFlowTop_notNull c d hdn, hN]
            have hm : impMalformed (some d) = true := by
              rw [impMalformed_notNull d hdn, hN]
            rw [heq, hm]
            exact ⟨fun _ => rfl, fun _ => ⟨.missingNodes, rfl⟩⟩
          | obj fs =>
            have heq : impFlowTop c (some d) = .error .missingNodes := by
              rw [impFlowTop_notNull c d hdn, hN]
            have hm : impMalformed (some d) = true := by
              rw [impMalformed_notNull d hdn, hN]
            rw [heq, hm]
            exact ⟨fun _ => rfl, fun _ => ⟨.missingNodes, rfl⟩⟩
  · rintro st ⟨er, her⟩
    unfold handleImport
    rw [her]

/-- C7 counterexample to the claim as stated: `{"nodes":[null]}` is
parseable JSON whose `nodes` field *is* an array, yet the import throws
(`n.id` on the null entry raises a `TypeError`). -/
theorem flowImport_failure_counterexample :
    impFlowTop 0 (some nullNodeDoc) = .error .typeError ∧
    getF nullNodeDoc "nodes" = some (Json.arr [Json.null]) := ⟨rfl, rfl⟩

/-- Witness for `flowImport_failure` at the null-entry document and an
arbitrary prior store state. -/
theorem flowImport_failure_witness :
    impMalformed (some nullNodeDoc) = true ∧
    handleImport { nodes := [], startNodeId := Json.null } 0
        (some nullNodeDoc) = { nodes := [], startNodeId := Json.null } := by
  have h := flowImport_failure 0 (some nullNodeDoc)
  have herr : ∃ er, impFlowTop 0 (some nullNodeDoc) = .error er :=
    ⟨.typeError, rfl⟩
  exact ⟨h.1.mp herr, h.2 _ herr⟩

end Flowcraft

namespace Flowcraft

/-- Reading back the serialized form of an edge recovers its target,
condition, and parameter map (an omitted `parameters` key defaults to the
empty object, which is the serialization of the empty map). -/
theorem impEdge_fields (e : FlowEdge) :
    jsCoalesce (getF (exportedEdgeJson (exportEdge e)) "to_node_id")
      (.str "") = .str e.toNodeId ∧
    jsCoalesce (getF (exportedEdgeJson (exportEdge e)) "condition")
      (.str "") = .str e.condition ∧
    jsCoalesce (getF (exportedEdgeJson (exportEdge e)) "parameters")
      (.obj []) = paramsJson e.parameters := by
  unfold exportedEdgeJson exportEdge getF
  by_cases h : 0 < e.parameters.length
  · rw [if_pos h]
    exact ⟨rfl, rfl, rfl⟩
  · rw [if_neg h]
    have hnil : e.parameters = [] := List.length_eq_zero.mp (by omega)
    rw [hnil]
    exact ⟨rfl, rfl, rfl⟩

/-- Importing the serialized edges of a node succeeds, consumes one counter
value per edge, and reproduces the targets, conditions and parameter maps
in order. -/
theorem impEdges_export :
    ∀ (edges : List FlowEdge) (c : Nat),
      ∃ res : List RawEdge,
        impEdges c ((edges.map exportEdge).map exportedEdgeJson) =
          .ok (res, c + edges.length) ∧
        res.map (fun r => r.toNodeId) =
          edges.map (fun e => Json.str e.toNodeId) ∧
        res.map (fun r => r.condition) =
          edges.map (fun e => Json.str e.condition) ∧
        res.map (fun r => r.parameters) =
          edges.map (fun e => paramsJson e.parameters) := by
  intro edges
  induction edges with
  | nil => exact fun c => ⟨[], by simp [impEdges], rfl, rfl, rfl⟩
  | cons e rest ih =>
    intro c
    obtain ⟨res, hres, h1, h2, h3⟩ := ih (c + 1)
    obtain ⟨hf1, hf2, hf3⟩ := impEdge_fields e
    refine ⟨{ id := generateEdgeId c,
              toNodeId := jsCoalesce
                (getF (exportedEdgeJson (exportEdge e)) "to_node_id")
                (.str ""),
              condition := jsCoalesce
                (getF (exportedEdgeJson (exportEdge e)) "condition")
                (.str ""),
              parameters := jsCoalesce
                (getF (exportedEdgeJson (exportEdge e)) "parameters")
                (.obj []) } :: res, ?_, ?_, ?_, ?_⟩
    · simp only [List.map_cons]
      rw [impEdges_cons_notNull c (exportedEdgeJson (exportEdge e))
        ((rest.map exportEdge).map exportedEdgeJson) rfl, hres]
      rw [show c + 1 + rest.length = c + (rest.length + 1) from by omega]
      rfl
    · simp only [List.map_cons, h1, hf1]
    · simp only [List.map_cons, h2, hf2]
    · simp only [List.map_cons, h3, hf3]

/-- Importing the serialized form of a node with a non-empty id succeeds,
keeps the id (it is truthy), recovers description and prompt, and imports
the edges as above. -/
theorem impNode_export (n : FlowNode) (c i : Nat) (hid : n.id ≠ "") :
    ∃ res : List RawEdge,
      impNode c i (exportedNodeJson (exportNode n)) =
        .ok ({ id := .str n.id, description := .str n.description,
               prompt := .str n.prompt, edges := res,
               x := snapToGrid (100 + (Int.ofNat (i % 4)) * 260),
               y := snapToGrid (100 + (Int.ofNat (i / 4)) * 140) },
          c + n.edges.length) ∧
      res.map (fun r => r.toNodeId) =
        n.edges.map (fun e => Json.str e.toNodeId) ∧
      res.map (fun r => r.condition) =
        n.edges.map (fun e => Json.str e.condition) ∧
      res.map (fun r => r.parameters) =
        n.edges.map (fun e => paramsJson e.parameters) := by
  obtain ⟨res, hres, h1, h2, h3⟩ := impEdges_export n.edges c
  refine ⟨res, ?_, h1, h2, h3⟩
  have htr : jsTruthy (getF (exportedNodeJson (exportNode n)) "id") =
      true := by
    have hidF : getF (exportedNodeJson (exportNode n)) "id" =
        some (.str n.id) := rfl
    rw [hidF]
    simp [jsTruthy, hid]
  rw [impNode_notNull c i (exportedNodeJson (exportNode n)) rfl, htr]
  simp only [if_true]
  have hEdges : impNodeEdges c (exportedNodeJson (exportNode n)) =
      impEdges c ((n.edges.map exportEdge).map exportedEdgeJson) := rfl
  rw [hEdges, hres]
  rfl

end Flowcraft

namespace Flowcraft

/-- Importing the serialized node list succeeds, consumes one counter value
per edge, and reproduces all non-positional fields in order. -/
theorem impNodesLoop_export :
    ∀ (nodes : List FlowNode) (i c : Nat), (∀ n ∈ nodes, n.id ≠ "") →
      ∃ rns : List RawNode,
        impNodesLoop i c ((nodes.map exportNode).map exportedNodeJson) =
          .ok (rns, c + (nodes.map (fun n => n.edges.length)).sum) ∧
        rns.map (fun r => r.id) = nodes.map (fun n => Json.str n.id) ∧
        rns.map (fun r => r.description) =
          nodes.map (fun n => Json.str n.description) ∧
        rns.map (fun r => r.prompt) =
          nodes.map (fun n => Json.str n.prompt) ∧
        rns.map (fun r => r.edges.map (fun e => e.toNodeId)) =
          nodes.map (fun n => n.edges.map (fun e => Json.str e.toNodeId)) ∧
        rns.map (fun r => r.edges.map (fun e => e.condition)) =
          nodes.map (fun n => n.edges.map (fun e => Json.str e.condition)) ∧
        rns.map (fun r => r.edges.map (fun e => e.parameters)) =
          nodes.map (fun n => n.edges.map
            (fun e => paramsJson e.parameters)) := by
  intro nodes
  induction nodes with
  | nil =>
    intro i c _
    exact ⟨[], by simp [impNodesLoop], rfl, rfl, rfl, rfl, rfl, rfl⟩
  | cons n rest ih =>
    intro i c hids
    obtain ⟨res, hnode, he1, he2, he3⟩ :=
      impNode_export n c i (hids n (by simp))
    obtain ⟨rns, hrest, h1, h2, h3, h4, h5, h6⟩ :=
      ih (i + 1) (c + n.edges.length) (fun m hm => hids m (by simp [hm]))
    refine ⟨{ id := .str n.id, description := .str n.description,
              prompt := .str n.prompt, edges := res,
              x := snapToGrid (100 + (Int.ofNat (i % 4)) * 260),
              y := snapToGrid (100 + (Int.ofNat (i / 4)) * 140) } :: rns,
      ?_, ?_, ?_, ?_, ?_, ?_, ?_⟩
    · simp only [List.map_cons]
      have heq : impNodesLoop i c
          (exportedNodeJson (exportNode n) ::
            (rest.map exportNode).map exportedNodeJson) =
          match impNodesLoop (i + 1) (c + n.edges.length)
              ((rest.map exportNode).map exportedNodeJson) with
          | .error er => .error er
          | .ok (rns', c'') =>
            .ok ({ id := .str n.id, description := .str n.description,
                   prompt := .str n.prompt, edges := res,
                   x := snapToGrid (100 + (Int.ofNat (i % 4)) * 260),
                   y := snapToGrid (100 + (Int.ofNat (i / 4)) * 140) }
              :: rns', c'') := by
        simp only [impNodesLoop, hnode]
      rw [heq, hrest]
      rw [show c + n.edges.length +
          (rest.map (fun m => m.edges.length)).sum =
          c + ((n :: rest).map (fun m => m.edges.length)).sum from by
        rw [List.map_cons, List.sum_cons]
        omega]
      rfl
    · simp only [List.map_cons, h1]
    · simp only [List.map_cons, h2]
    · simp only [List.map_cons, h3]
    · simp only [List.map_cons, h4, he1]
    · simp only [List.map_cons, h5, he2]
    · simp only [List.map_cons, h6, he3]

/-- C1 (amended): for every graph whose node ids are all non-empty, running
the import on the JSON serialization of the graph's export succeeds and
yields the same sequence of node ids, descriptions, prompts, and per-node
sequences of edge targets, conditions and parameter maps; positions and
internal edge ids are not compared. -/
theorem exportImport_roundTrip (nodes : List FlowNode)
    (start : Option String) (c : Nat) (hids : ∀ n ∈ nodes, n.id ≠ "") :
    ∃ rns startJ c',
      impFlowTop c
        (some (exportedFlowJson (buildExportedFlow nodes start))) =
        .ok (rns, startJ, c') ∧
      rns.map (fun r => r.id) = nodes.map (fun n => Json.str n.id) ∧
      rns.map (fun r => r.description) =
        nodes.map (fun n => Json.str n.description) ∧
      rns.map (fun r => r.prompt) = nodes.map (fun n => Json.str n.prompt) ∧
      rns.map (fun r => r.edges.map (fun e => e.toNodeId)) =
        nodes.map (fun n => n.edges.map (fun e => Json.str e.toNodeId)) ∧
      rns.map (fun r => r.edges.map (fun e => e.condition)) =
        nodes.map (fun n => n.edges.map (fun e => Json.str e.condition)) ∧
      rns.map (fun r => r.edges.map (fun e => e.parameters)) =
        nodes.map (fun n => n.edges.map
          (fun e => paramsJson e.parameters)) := by
  obtain ⟨rns, hloop, h1, h2, h3, h4, h5, h6⟩ :=
    impNodesLoop_export nodes 0 c hids
  refine ⟨rns,
    jsCoalesce (jsCoalesceO
      (getF (exportedFlowJson (buildExportedFlow nodes start))
        "start_node_id")
      (rns.head?.map (fun r => r.id))) Json.null,
    c + (nodes.map (fun n => n.edges.length)).sum,
    ?_, h1, h2, h3, h4, h5, h6⟩
  have hN : getF (exportedFlowJson (buildExportedFlow nodes start))
      "nodes" = some (.arr ((nodes.map exportNode).map exportedNodeJson)) :=
    rfl
  rw [impFlowTop_nodesArr c
    (exportedFlowJson (buildExportedFlow nodes start)) rfl
    ((nodes.map exportNode).map exportedNodeJson) hN, hloop]

/-- C1 counterexample to the claim as stated: a node whose id is the empty
string does not survive the round trip — the empty id is JS-falsy, so
`importFlow` replaces it with a freshly generated `node_1`. -/
theorem exportImport_roundTrip_counterexample :
    impFlowTop 0 (some (exportedFlowJson (buildExportedFlow
      [{ id := "", description := "", prompt := "", edges := [],
         x := 0, y := 0 }] none))) =
      .ok ([{ id := Json.str "node_1", description := Json.str "",
              prompt := Json.str "", edges := [], x := 100, y := 100 }],
        Json.str "node_1", 1) ∧
    Json.str "node_1" ≠ Json.str "" := by
  refine ⟨rfl, ?_⟩
  intro h
  injection h with h'
  exact absurd h' (by decide)

/-- Witness for `exportImport_roundTrip` on a single node with id `"x"`. -/
theorem exportImport_roundTrip_witness :
    ∃ rns startJ c',
      impFlowTop 0 (some (exportedFlowJson
        (buildExportedFlow [nodeX] (some "x")))) = .ok (rns, startJ, c') ∧
      rns.map (fun r => r.id) = [Json.str "x"] := by
  obtain ⟨rns, startJ, c', heq, h1, -, -, -, -, -⟩ :=
    exportImport_roundTrip [nodeX] (some "x") 0
      (fun n hn => by
        rcases List.mem_singleton.mp hn with rfl
        decide)
  exact ⟨rns, startJ, c', heq, by rw [h1]; rfl⟩

end Flowcraft
